import Mathlib

/-!
Verification development for the SME-LENS Document Intelligence Engine.

This file gives a shallow embedding, in Lean 4, of the post-OCR reasoning
pipeline of the repository (consensus extraction, learning memory,
confirmation planning, text cleaning), together with theorems settling the
specification claims about it.

Conventions of the embedding:
* Python `float` values that arise from parsing decimal digit strings are
  modelled as `ℚ` (the strings parsed are plain decimal literals, so the
  rational value is the idealised float value).
* Python `str` is modelled as Lean `String`; `str.lower()` is modelled
  ASCII-only, which is exact on the ASCII texts the pipeline targets.
* Python dicts (which preserve insertion order) are modelled as ordered
  association lists.
* `list.sort(key=..., reverse=True)` (a stable sort) is modelled with the
  stable (hence extensionally unique) `List.insertionSort`.
* Regular-expression scanning (`re.finditer` / `re.search` / `re.findall` /
  `re.sub`) is modelled by hand-rolled matchers for the exact patterns that
  occur in the source, with Python's leftmost, non-overlapping, greedy
  (backtracking where the pattern needs it) semantics.
-/

/- The library marks the arithmetic on `Rat` irreducible; concrete runs of
the embedded functions are evaluated by `decide`, which needs it unfolded. -/
attribute [local semireducible] Rat.mul Rat.add Rat.sub Rat.inv

namespace SMELens

/-! ### Basic character and string helpers (Python semantics) -/

/-- ASCII embedding of Python `str.lower()`. -/
def pyToLower (c : Char) : Char :=
  if 'A' ≤ c ∧ c ≤ 'Z' then Char.ofNat (c.toNat + 32) else c

/-- Python `\s` (ASCII part): space, tab, newline, carriage return,
form feed, vertical tab. -/
def pyIsSpace (c : Char) : Bool :=
  c = ' ' || c = '\t' || c = '\n' || c = '\x0d' || c = '\x0c' || c = '\x0b'

/-- Python `\w` (ASCII part): letters, digits, underscore. -/
def isWordChar (c : Char) : Bool :=
  c.isAlpha || c.isDigit || c = '_'

/-- Python substring test `needle in hay` on character lists. -/
def strIn (n : List Char) : List Char → Bool
  | [] => n.isEmpty
  | c :: t => n.isPrefixOf (c :: t) || strIn n t

/-- Value of a list of decimal digit characters. -/
def natOfDigits (ds : List Char) : Nat :=
  ds.foldl (fun acc c => 10 * acc + (c.toNat - '0'.toNat)) 0

/-- Python `float(s)` on a string of decimal digits with at most one dot
(the only shapes reachable from the regexes below, after comma removal):
`none` mirrors the `ValueError` branch. -/
def parseFloatDigits (s : List Char) : Option ℚ :=
  let ip := s.takeWhile Char.isDigit
  let rest := s.dropWhile Char.isDigit
  match rest with
  | [] => if ip.isEmpty then none else some (natOfDigits ip)
  | '.' :: fp =>
    if fp.all Char.isDigit ∧ ¬(ip.isEmpty ∧ fp.isEmpty) then
      some ((natOfDigits ip : ℚ) + (natOfDigits fp : ℚ) / (10 : ℚ) ^ fp.length)
    else none
  | _ => none

/-- Python `str.split(sep)` for a one-character separator: split at every
occurrence, keeping empty pieces. -/
def splitOnChar (sep : Char) : List Char → List (List Char)
  | [] => [[]]
  | c :: t =>
    let r := splitOnChar sep t
    if c = sep then [] :: r
    else
      match r with
      | h :: t' => (c :: h) :: t'
      | [] => [[c]]

/-- `text.split('\n')`. -/
def pySplitLines (s : String) : List String := (splitOnChar '\n' s.data).map String.mk

/-- Split at every character satisfying `p`, keeping empty pieces
(the building block of Python `str.split()` with no argument). -/
def splitOnPred (p : Char → Bool) : List Char → List (List Char)
  | [] => [[]]
  | c :: t =>
    let r := splitOnPred p t
    if p c then [] :: r
    else
      match r with
      | h :: t' => (c :: h) :: t'
      | [] => [[c]]

/-- Lexicographic strict comparison of character lists by code point
(Python `str` comparison). -/
def charListLt : List Char → List Char → Bool
  | [], [] => false
  | [], _ :: _ => true
  | _ :: _, [] => false
  | a :: as, b :: bs => if a = b then charListLt as bs else decide (a.toNat < b.toNat)

/-- Python `a < b` on strings. -/
def pyStrLt (a b : String) : Bool := charListLt a.data b.data

/-- Python `a <= b` on strings. -/
def pyStrLe (a b : String) : Bool := pyStrLt a b || a == b

/-- Python `str.strip()` (ASCII whitespace). -/
def pyStrip (s : String) : String :=
  String.mk (((s.data.dropWhile (pyIsSpace ·)).reverse.dropWhile (pyIsSpace ·)).reverse)

/-- Python `str.lower()` on a whole string (ASCII embedding). -/
def pyLower (s : String) : String :=
  String.mk (s.data.map pyToLower)

/-! ### Values and normalization (consensus_engine._normalize_for_comparison) -/

/-- Dynamic values flowing through the consensus engine: amounts are floats
(modelled as `ℚ`), dates and vendors are strings. -/
inductive Value where
  | num (q : ℚ)
  | str (s : String)
deriving DecidableEq, Repr

/-- Round-half-to-even on `ℚ` (idealisation of Python `round` on floats). -/
def roundHalfEven (x : ℚ) : ℤ :=
  let f := ⌊x⌋
  let r := x - f
  if r < 1/2 then f
  else if 1/2 < r then f + 1
  else if 2 ∣ f then f else f + 1

/-- Python `round(value, 2)` on the idealised float value. -/
def pyRound2 (q : ℚ) : ℚ := (roundHalfEven (q * 100) : ℚ) / 100

/-- `ConsensusExtractor._normalize_for_comparison`: floats are rounded to two
decimal places, strings are trimmed and lowercased. -/
def normalizeForComparison : Value → Value
  | .num q => .num (pyRound2 q)
  | .str s => .str (pyLower (pyStrip s))

/-! ### Consensus data model (consensus_engine) -/

/-- `consensus_engine.ConsensusLevel`. -/
inductive ConsensusLevel where
  | strong
  | moderate
  | weak
  | none
deriving DecidableEq, Repr

/-- `consensus_engine.DetectorResult`. -/
structure DetectorResult where
  detector_name : String
  value : Value
  confidence : ℚ
  evidence : String
  position : Option (Nat × Nat)
deriving DecidableEq, Repr

/-- `consensus_engine.ConsensusResult`. -/
structure ConsensusResult where
  field_name : String
  final_value : Option Value
  consensus_level : ConsensusLevel
  agreement_count : Nat
  total_detectors : Nat
  detector_results : List DetectorResult
  agreeing_detectors : List String
  dissenting_detectors : List String
  all_candidates : List (Value × Nat)
  needs_confirmation : Bool
  confirmation_reason : Option String
deriving DecidableEq, Repr

/-- One voting step of `_build_consensus`: append `name` to the vote list of
key `v` in the ordered association list (Python dict semantics: new keys go
to the end, existing keys keep their position). -/
def voteInsert (name : String) (v : Value) : List (Value × List String) → List (Value × List String)
  | [] => [(v, [name])]
  | (k, ns) :: rest =>
    if k = v then (k, ns ++ [name]) :: rest else (k, ns) :: voteInsert name v rest

/-- The `vote_counts` dict of `_build_consensus`: normalized value ↦ names of
the detectors that voted for it, in insertion order. -/
def voteCounts (results : List DetectorResult) : List (Value × List String) :=
  results.foldl (fun acc r => voteInsert r.detector_name (normalizeForComparison r.value) acc) []

/-- Association-list lookup used to model `vote_counts[best_value]`. -/
def assocVotes (l : List (Value × List String)) (k : Value) : Option (List String) :=
  match l with
  | [] => Option.none
  | (k', ns) :: rest => if k' = k then some ns else assocVotes rest k

/-- Python `repr` of a value, as used in the conflicting-values message
(approximate textual form; the message content is not load-bearing). -/
def reprValue : Value → String
  | .num q => toString q
  | .str s => "'" ++ s ++ "'"

/-- The `all_candidates` list of `_build_consensus`, sorted by vote count
descending (`list.sort(key=votes, reverse=True)` is a stable sort). -/
def sortedCandidates (detector_results : List DetectorResult) : List (Value × Nat) :=
  ((voteCounts detector_results).map (fun p => (p.1, p.2.length))).insertionSort
    (fun a b => b.2 ≤ a.2)

/-- The level / needs_confirmation / reason assignment of
`_build_consensus`. -/
def levelTripleOf (best_count : Nat) (sorted : List (Value × Nat)) :
    ConsensusLevel × Bool × Option String :=
  if 3 ≤ best_count then (.strong, false, Option.none)
  else if 2 ≤ best_count then (.moderate, false, Option.none)
  else
    (.weak, true,
      some (if 1 < sorted.length then
        "Conflicting values detected: [" ++
          String.intercalate ", " ((sorted.take 3).map (fun c => reprValue c.1)) ++ "]"
      else "Only " ++ toString best_count ++ " detector(s) found this value"))

/-- `ConsensusExtractor._build_consensus`. -/
def buildConsensus (field_name : String) (detector_results : List DetectorResult) :
    ConsensusResult :=
  match detector_results with
  | [] =>
    ⟨field_name, Option.none, .none, 0, 0, [], [], [], [], true,
      some ("No " ++ field_name ++ " candidates detected")⟩
  | _ :: _ =>
    let vc := voteCounts detector_results
    match sortedCandidates detector_results with
    | [] =>
      ⟨field_name, Option.none, .none, 0, detector_results.length, detector_results,
        [], detector_results.map (·.detector_name), [], true,
        some ("Could not parse " ++ field_name ++ " values")⟩
    | (best_value, best_count) :: rest =>
      let agreeing := (assocVotes vc best_value).getD []
      let dissenting :=
        (detector_results.filter (fun d => ¬ agreeing.contains d.detector_name)).map
          (·.detector_name)
      let levelTriple := levelTripleOf best_count ((best_value, best_count) :: rest)
      let final_value :=
        (detector_results.find? (fun d => normalizeForComparison d.value = best_value)).map
          (·.value)
      ⟨field_name, final_value, levelTriple.1, best_count, detector_results.length,
        detector_results, agreeing, dissenting, (best_value, best_count) :: rest,
        levelTriple.2.1, levelTriple.2.2⟩

/-! ### Amount detectors (consensus_engine, total_amount field) -/

/-- `ConsensusExtractor.TOTAL_KEYWORDS` (in source order, which is also the
order of the regex alternation). -/
def TOTAL_KEYWORDS : List String :=
  ["total", "grand total", "net total", "amount due", "balance due", "balance",
   "payable", "pay", "sum", "gross"]

/-- `ConsensusExtractor.SUBTOTAL_KEYWORDS`. -/
def SUBTOTAL_KEYWORDS : List String := ["subtotal", "sub total", "sub-total"]

/-- Greedy match of `[\d,]+\.?\d*` at the head of `s`; returns the matched
characters and the number of characters consumed. (The pattern is
deterministic: the three parts draw from disjoint character sets.) -/
def matchAmountToken (s : List Char) : Option (List Char × Nat) :=
  let ip := s.takeWhile (fun c => c.isDigit || c = ',')
  if ip.isEmpty then Option.none
  else
    match s.drop ip.length with
    | '.' :: r2 =>
      let fp := r2.takeWhile Char.isDigit
      some (ip ++ '.' :: fp, ip.length + 1 + fp.length)
    | _ => some (ip, ip.length)

/-- Match of the tail `\s*[:\s]*[{currency}$€£]?\s*([\d,]+\.?\d*)` of the
amount regex. `\s*[:\s]*` is a maximal run over whitespace and ':'; the
optional currency-class character and the amount are then deterministic
(backtracking cannot produce a match the greedy scan misses, because the
later parts of the pattern cannot match whitespace or ':'). -/
def matchAmountTail (currency : String) (s : List Char) : Option (List Char × Nat) :=
  let sp := s.takeWhile (fun c => pyIsSpace c || c = ':')
  let r1 := s.drop sp.length
  let curLen : Nat :=
    match r1 with
    | c :: _ => if c ∈ currency.data || c = '$' || c = '€' || c = '£' then 1 else 0
    | [] => 0
  let r2 := r1.drop curLen
  let sp2 := r2.takeWhile (pyIsSpace ·)
  match matchAmountToken (r2.drop sp2.length) with
  | some (g, k) => some (g, sp.length + curLen + sp2.length + k)
  | none => Option.none

/-- Try the keyword alternation of the amount regex at the current position:
alternatives are tried in source order, and a later alternative is tried when
the rest of the pattern fails after an earlier one (regex backtracking). -/
def matchKwAt (currency : String) (s : List Char) : Option (String × List Char × Nat) :=
  TOTAL_KEYWORDS.findSome? (fun kw =>
    if kw.data.isPrefixOf s then
      (matchAmountTail currency (s.drop kw.length)).map
        (fun gk => (kw, gk.1, kw.length + gk.2))
    else Option.none)

/-- One match attempt of the full amount pattern
`(?:^|[^\w])(keyword…)\s*[:\s]*[{currency}$€£]?\s*([\d,]+\.?\d*)` (MULTILINE)
at the current position: the `^` branch is tried first, then the `[^\w]`
branch. Returns (keyword, amount group, consumed length). -/
def matchKwAmount (currency : String) (prev : Option Char) (s : List Char) :
    Option (String × List Char × Nat) :=
  let atLineStart := prev.isNone || prev = some '\n'
  match (if atLineStart then matchKwAt currency s else Option.none) with
  | some r => some r
  | none =>
    match s with
    | c :: rest =>
      if isWordChar c then Option.none
      else (matchKwAt currency rest).map (fun r => (r.1, r.2.1, r.2.2 + 1))
    | [] => Option.none

/-- `re.finditer` scan for the amount pattern: leftmost, non-overlapping.
Carries the reversed already-scanned text so each match records its
20-character preceding context (`text_lower[max(0, start-20):start]`).
Yields (context, keyword, amount group) per match. -/
def regexAmountScan (currency : String) :
    Nat → List Char → List Char → List (List Char × String × List Char)
  | 0, _, _ => []
  | _ + 1, _, [] => []
  | fuel + 1, revp, c :: rest =>
    match matchKwAmount currency revp.head? (c :: rest) with
    | some (kw, g, k) =>
      let k' := max k 1
      ((revp.take 20).reverse, kw, g) ::
        regexAmountScan currency fuel (((c :: rest).take k').reverse ++ revp)
          ((c :: rest).drop k')
    | none => regexAmountScan currency fuel (c :: revp) rest

/-- `ConsensusExtractor._detect_amount_regex`. -/
def detectAmountRegex (text currency : String) : Option DetectorResult :=
  let tl := text.data.map pyToLower
  let ms := regexAmountScan currency (tl.length + 1) [] tl
  let best :=
    ms.foldl
      (fun (b : ℚ × Option String) m =>
        if SUBTOTAL_KEYWORDS.any (fun sub => strIn sub.data m.1) then b
        else
          match parseFloatDigits (m.2.2.filter (· ≠ ',')) with
          | some v => if b.1 < v ∧ 0 < v then (v, some m.2.1) else b
          | none => b)
      ((0 : ℚ), Option.none)
  match best.2 with
  | some kw =>
    if 0 < best.1 then
      some ⟨"regex", .num best.1, 17/20,
        "Found after keyword '" ++ kw ++ "' via regex pattern", Option.none⟩
    else Option.none
  | none => Option.none

/-- `re.findall(r'[\d,]+\.?\d*', line)`: leftmost, non-overlapping matches. -/
def findAmountTokens : Nat → List Char → List (List Char)
  | 0, _ => []
  | _ + 1, [] => []
  | fuel + 1, c :: rest =>
    match matchAmountToken (c :: rest) with
    | some (g, k) => g :: findAmountTokens fuel ((c :: rest).drop (max k 1))
    | none => findAmountTokens fuel rest

def findallAmounts (line : List Char) : List (List Char) :=
  findAmountTokens (line.length + 1) line

/-- `ConsensusExtractor._looks_like_date`: the candidate string parses to a
value in [1900, 2100]. -/
def looksLikeDate (s : List Char) : Bool :=
  match parseFloatDigits (s.filter (· ≠ ',')) with
  | some v => decide (1900 ≤ v ∧ v ≤ 2100)
  | none => false

/-- Python `str.find` on character lists. -/
def pyFindAux (n : List Char) : List Char → Nat → Option Nat
  | [], i => if n.isEmpty then some i else Option.none
  | c :: t, i => if n.isPrefixOf (c :: t) then some i else pyFindAux n t (i + 1)

def pyFind (n h : List Char) : Int :=
  match pyFindAux n h 0 with
  | some i => i
  | none => -1

/-- `ConsensusExtractor._detect_amount_proximity`. -/
def detectAmountProximity (text : String) : Option DetectorResult :=
  let lines := pySplitLines text
  lines.enum.findSome? (fun p =>
    let lineLower := p.2.data.map pyToLower
    if SUBTOTAL_KEYWORDS.any (fun sub => strIn sub.data lineLower) then Option.none
    else if TOTAL_KEYWORDS.any (fun kw => strIn kw.data lineLower) then
      (findallAmounts p.2.data).findSome? (fun s =>
        match parseFloatDigits (s.filter (· ≠ ',')) with
        | some v =>
          if 1/2 < v ∧ ¬ looksLikeDate s then
            some ⟨"proximity", .num v, 9/10,
              "On same line as 'total' keyword (line " ++ toString (p.1 + 1) ++ ")",
              some (p.1, (pyFind s p.2.data).toNat)⟩
          else Option.none
        | none => Option.none)
    else Option.none)

/-- The `footer_amounts` collection of `_detect_amount_position`. -/
def footerAmountsOf (text : String) : List (ℚ × Nat) :=
  let lines := pySplitLines text
  let footerStart := 4 * lines.length / 5
  (lines.enum.drop footerStart).foldl
    (fun acc p =>
      if SUBTOTAL_KEYWORDS.any (fun sub => strIn sub.data (p.2.data.map pyToLower)) then acc
      else
        (findallAmounts p.2.data).foldl
          (fun a s =>
            match parseFloatDigits (s.filter (· ≠ ',')) with
            | some v => if 1/2 < v ∧ ¬ looksLikeDate s then a ++ [(v, p.1)] else a
            | none => a)
          acc)
    ([] : List (ℚ × Nat))

/-- `ConsensusExtractor._detect_amount_position`. `int(total_lines * 0.80)`
is `4 * n / 5` (the float computation agrees with the exact one for every
realistic line count, as the products stay far below the precision limit). -/
def detectAmountPosition (text : String) : Option DetectorResult :=
  match footerAmountsOf text with
  | [] => Option.none
  | h :: t =>
    -- Python max(..., key=value) returns the first maximal element
    let best := (h :: t).foldl (fun b x => if b.1 < x.1 then x else b) h
    some ⟨"position", .num best.1, 3/4,
      "Largest amount in footer zone (Footer zone line " ++ toString (best.2 + 1) ++ ")",
      some (best.2, 0)⟩

/-- The `all_amounts` collection of `_detect_amount_statistical`. -/
def allAmountsOf (text : String) : List ℚ :=
  (pySplitLines text).foldl
    (fun acc line =>
      if SUBTOTAL_KEYWORDS.any (fun sub => strIn sub.data (line.data.map pyToLower)) then acc
      else
        (findallAmounts line.data).foldl
          (fun a s =>
            match parseFloatDigits (s.filter (· ≠ ',')) with
            | some v =>
              if 1/2 < v ∧ v < 10000000 ∧ ¬ looksLikeDate s then a ++ [v] else a
            | none => a)
          acc)
    ([] : List ℚ)

/-- `ConsensusExtractor._detect_amount_statistical`. -/
def detectAmountStatistical (text : String) : Option DetectorResult :=
  match allAmountsOf text with
  | [] => Option.none
  | h :: t =>
    let largest := (h :: t).foldl (fun b x => if b < x then x else b) h
    let conf : ℚ :=
      if 1 < (h :: t).length then
        let sortedAmounts := (h :: t).insertionSort (fun a b => b ≤ a)
        let second : ℚ :=
          match sortedAmounts with
          | _ :: s :: _ => s
          | _ => 0
        if second * 3/2 < largest then 4/5 else 3/5
      else 7/10
    some ⟨"statistical", .num largest, conf,
      "Largest amount in document (" ++ toString largest ++ ")", Option.none⟩

/-- `ConsensusExtractor.extract_total_amount`: run the four detectors in
order, keep the ones that returned a result, and vote. -/
def extractTotalAmount (text currency : String) : ConsensusResult :=
  buildConsensus "total_amount"
    ([detectAmountRegex text currency, detectAmountProximity text,
      detectAmountPosition text, detectAmountStatistical text].filterMap id)

/-! ### Date detectors (consensus_engine, date field) -/

/-- Exactly `k` digits at the head of `s` (regex `\d{k}`). -/
def takeDigitsN (k : Nat) (s : List Char) : Option (Nat × List Char) :=
  if (s.take k).length = k ∧ (s.take k).all Char.isDigit then
    some (natOfDigits (s.take k), s.drop k)
  else Option.none

/-- Greedy `(\d{1,2})` with regex backtracking: two digits are tried first,
and one digit is retried when the rest of the pattern fails. -/
def tryD12 {α} (s : List Char) (cont : Nat → List Char → Option α) : Option α :=
  match s with
  | a :: b :: r =>
    if a.isDigit then
      if b.isDigit then
        match cont (natOfDigits [a, b]) r with
        | some x => some x
        | none => cont (natOfDigits [a]) (b :: r)
      else cont (natOfDigits [a]) (b :: r)
    else Option.none
  | [a] => if a.isDigit then cont (natOfDigits [a]) [] else Option.none
  | [] => Option.none

/-- The separator class `[/.-]`. -/
def isSepChar (c : Char) : Bool := c = '/' || c = '.' || c = '-'

/-- Match `(\d{4})[/.-](\d{1,2})[/.-](\d{1,2})` at the head of `s`.
Returns the three groups and the consumed length. -/
def matchYMD (s : List Char) : Option ((Nat × Nat × Nat) × Nat) :=
  match takeDigitsN 4 s with
  | some (y, r1) =>
    match r1 with
    | c1 :: r2 =>
      if isSepChar c1 then
        tryD12 r2 (fun m r3 =>
          match r3 with
          | c2 :: r4 =>
            if isSepChar c2 then
              tryD12 r4 (fun d r5 => some ((y, m, d), s.length - r5.length))
            else Option.none
          | [] => Option.none)
      else Option.none
    | [] => Option.none
  | none => Option.none

/-- Match `(\d{1,2})[/.-](\d{1,2})[/.-](\d{4})` at the head of `s`. -/
def matchDMY (s : List Char) : Option ((Nat × Nat × Nat) × Nat) :=
  tryD12 s (fun d r1 =>
    match r1 with
    | c1 :: r2 =>
      if isSepChar c1 then
        tryD12 r2 (fun m r3 =>
          match r3 with
          | c2 :: r4 =>
            if isSepChar c2 then
              (takeDigitsN 4 r4).map (fun yr => ((d, m, yr.1), s.length - yr.2.length))
            else Option.none
          | [] => Option.none)
      else Option.none
    | [] => Option.none)

/-- Match `(\d{1,2})[/.-](\d{1,2})[/.-](\d{2})\b` at the head of `s`:
the trailing word boundary requires the next character to be a non-word
character (or the end of the text), and its failure backtracks into the
`{1,2}` quantifiers. -/
def matchDMYShort (s : List Char) : Option ((Nat × Nat × Nat) × Nat) :=
  tryD12 s (fun d r1 =>
    match r1 with
    | c1 :: r2 =>
      if isSepChar c1 then
        tryD12 r2 (fun m r3 =>
          match r3 with
          | c2 :: r4 =>
            if isSepChar c2 then
              match takeDigitsN 2 r4 with
              | some (y, r5) =>
                match r5 with
                | [] => some ((d, m, y), s.length)
                | c :: _ =>
                  if isWordChar c then Option.none
                  else some ((d, m, y), s.length - r5.length)
              | none => Option.none
            else Option.none
          | [] => Option.none)
      else Option.none
    | [] => Option.none)

def MONTH_NAMES : List String :=
  ["Jan", "Feb", "Mar", "Apr", "May", "Jun", "Jul", "Aug", "Sep", "Oct", "Nov", "Dec"]

/-- Match
`(\d{1,2})\s+(Jan|Feb|…|Dec)[a-z]*[,.]?\s+(\d{4})` (IGNORECASE) at the head
of `s`. The month group captures the three matched characters as they occur
in the text. -/
def matchDMonY (s : List Char) : Option ((Nat × String × Nat) × Nat) :=
  tryD12 s (fun d r1 =>
    let ws1 := r1.takeWhile (pyIsSpace ·)
    if ws1.isEmpty then Option.none
    else
      let r2 := r1.drop ws1.length
      MONTH_NAMES.findSome? (fun mon =>
        if (r2.take 3).map pyToLower = mon.data.map pyToLower ∧ (r2.take 3).length = 3 then
          let r3 := r2.drop 3
          let letters := r3.takeWhile (·.isAlpha)
          let r4 := r3.drop letters.length
          let pd : Nat :=
            match r4 with
            | c :: _ => if c = ',' || c = '.' then 1 else 0
            | [] => 0
          let r5 := r4.drop pd
          let ws2 := r5.takeWhile (pyIsSpace ·)
          if ws2.isEmpty then Option.none
          else
            (takeDigitsN 4 (r5.drop ws2.length)).map
              (fun yr => ((d, String.mk (r2.take 3), yr.1), s.length - yr.2.length))
        else Option.none))

/-- `re.search`: first match, scanning positions left to right. -/
def searchDatePat {α} (m : List Char → Option (α × Nat)) : List Char → Option α
  | [] => Option.none
  | c :: rest =>
    match m (c :: rest) with
    | some (a, _) => some a
    | none => searchDatePat m rest

/-- `re.finditer`: all leftmost non-overlapping matches. -/
def finditerDatePat {α} (m : List Char → Option (α × Nat)) :
    Nat → List Char → List α
  | 0, _ => []
  | _ + 1, [] => []
  | fuel + 1, c :: rest =>
    match m (c :: rest) with
    | some (a, k) => a :: finditerDatePat m fuel ((c :: rest).drop (max k 1))
    | none => finditerDatePat m fuel rest

/-- `ConsensusExtractor._month_to_num`: `months.get(name.lower()[:3], 0)`. -/
def monthToNum (name : String) : Nat :=
  (([("jan", 1), ("feb", 2), ("mar", 3), ("apr", 4), ("may", 5), ("jun", 6),
     ("jul", 7), ("aug", 8), ("sep", 9), ("oct", 10), ("nov", 11), ("dec", 12)] :
      List (String × Nat)).lookup ((pyLower name).take 3)).getD 0

def digitChar (n : Nat) : Char := Char.ofNat ('0'.toNat + n)

/-- Python `f"{n:02d}"` (the argument is at most two digits on every
reachable input). -/
def pad2 (n : Nat) : String :=
  if n < 100 then String.mk [digitChar (n / 10), digitChar (n % 10)] else toString n

/-- Python `f"{n:04d}"` (the argument has exactly four digits on every
reachable input, as it has been bounded to [1900, 2100]). -/
def pad4 (n : Nat) : String :=
  if n < 10000 then
    String.mk [digitChar (n / 1000), digitChar (n / 100 % 10), digitChar (n / 10 % 10),
      digitChar (n % 10)]
  else toString n

def formatIsoDate (year month day : Nat) : String :=
  pad4 year ++ "-" ++ pad2 month ++ "-" ++ pad2 day

/-- The validation and formatting step shared by every branch of
`ConsensusExtractor._normalize_date`. -/
def validFormatDate (year month day : Nat) : Option String :=
  if 1 ≤ month ∧ month ≤ 12 ∧ 1 ≤ day ∧ day ≤ 31 ∧ 1900 ≤ year ∧ year ≤ 2100 then
    some (formatIsoDate year month day)
  else Option.none

/-- `_normalize_date(groups, 'YMD')`. -/
def normalizeDateYMD (g0 g1 g2 : Nat) : Option String := validFormatDate g0 g1 g2

/-- `_normalize_date(groups, 'DMY')`. -/
def normalizeDateDMY (g0 g1 g2 : Nat) : Option String := validFormatDate g2 g1 g0

/-- `_normalize_date(groups, 'DMY_short')`: two-digit years below 50 map to
2000+yy, the rest to 1900+yy. -/
def normalizeDateDMYShort (g0 g1 g2 : Nat) : Option String :=
  validFormatDate (if g2 < 50 then 2000 + g2 else 1900 + g2) g1 g0

/-- `_normalize_date(groups, 'D_Mon_Y')`. -/
def normalizeDateDMonY (g0 : Nat) (g1 : String) (g2 : Nat) : Option String :=
  validFormatDate g2 (monthToNum g1) g0

/-- Wrap a date matcher so that it also yields the matched substring
(`match.group(0)`). -/
def withMatched {α} (m : List Char → Option (α × Nat)) (s : List Char) :
    Option ((α × String) × Nat) :=
  (m s).map (fun ak => ((ak.1, String.mk (s.take ak.2)), ak.2))

/-- `ConsensusExtractor._detect_date_regex`: the three patterns are tried in
order; for each, only the first match of the whole text is considered, and a
match that fails normalization falls through to the next pattern. -/
def detectDateRegex (text : String) : Option DetectorResult :=
  let tl := text.data
  let mk : String → String → String → Option DetectorResult := fun nd fmt orig =>
    some ⟨"regex", .str nd, 17/20, "Matched " ++ fmt ++ " pattern: " ++ orig, Option.none⟩
  ((searchDatePat (withMatched matchYMD) tl).bind (fun gm =>
      (normalizeDateYMD gm.1.1 gm.1.2.1 gm.1.2.2).bind (fun nd => mk nd "YMD" gm.2))) <|>
  ((searchDatePat (withMatched matchDMY) tl).bind (fun gm =>
      (normalizeDateDMY gm.1.1 gm.1.2.1 gm.1.2.2).bind (fun nd => mk nd "DMY" gm.2))) <|>
  ((searchDatePat (withMatched matchDMonY) tl).bind (fun gm =>
      (normalizeDateDMonY gm.1.1 gm.1.2.1 gm.1.2.2).bind (fun nd => mk nd "D_Mon_Y" gm.2)))

/-- `ConsensusExtractor._detect_date_proximity`. -/
def detectDateProximity (text : String) : Option DetectorResult :=
  let lines := pySplitLines text
  lines.enum.findSome? (fun p =>
    let lineLower := p.2.data.map pyToLower
    if strIn "date".data lineLower || strIn "dated".data lineLower then
      let searchText :=
        p.2.data ++
          (match lines.get? (p.1 + 1) with
           | some nx => ' ' :: nx.data
           | none => [])
      let mk : String → Option DetectorResult := fun nd =>
        some ⟨"proximity", .str nd, 9/10,
          "Near 'date' keyword on line " ++ toString (p.1 + 1), some (p.1, 0)⟩
      ((searchDatePat matchYMD searchText).bind (fun g =>
          (normalizeDateYMD g.1 g.2.1 g.2.2).bind mk)) <|>
      ((searchDatePat matchDMY searchText).bind (fun g =>
          (normalizeDateDMY g.1 g.2.1 g.2.2).bind mk)) <|>
      ((searchDatePat matchDMYShort searchText).bind (fun g =>
          (normalizeDateDMYShort g.1 g.2.1 g.2.2).bind mk))
    else Option.none)

/-- `ConsensusExtractor._detect_date_position`: `int(total_lines * 0.15)` is
`3 * n / 20` (the float computation agrees with the exact one for every
realistic line count), with a minimum of 5 header lines. -/
def detectDatePosition (text : String) : Option DetectorResult :=
  let lines := pySplitLines text
  let headerEnd := max (3 * lines.length / 20) 5
  (lines.enum.take (min headerEnd lines.length)).findSome? (fun p =>
    let mk : String → Option DetectorResult := fun nd =>
      some ⟨"position", .str nd, 3/4,
        "In header zone (line " ++ toString (p.1 + 1) ++ ")", some (p.1, 0)⟩
    ((searchDatePat matchYMD p.2.data).bind (fun g =>
        (normalizeDateYMD g.1 g.2.1 g.2.2).bind mk)) <|>
    ((searchDatePat matchDMY p.2.data).bind (fun g =>
        (normalizeDateDMY g.1 g.2.1 g.2.2).bind mk)))

/-- Python tuple comparison on pairs of strings (lexicographic). -/
def pairLeStr (a b : String × String) : Bool :=
  pyStrLt a.1 b.1 || (a.1 == b.1 && (pyStrLt a.2 b.2 || a.2 == b.2))

/-- The `all_dates` collection of `_detect_date_statistical`: every
normalized date of the two finditer loops (YMD then DMY), with its matched
text. -/
def allDatesOf (text : String) : List (String × String) :=
  (finditerDatePat (withMatched matchDMY) (text.data.length + 1) text.data).foldl
    (fun acc gm =>
      match normalizeDateDMY gm.1.1 gm.1.2.1 gm.1.2.2 with
      | some nd => acc ++ [(nd, gm.2)]
      | none => acc)
    ((finditerDatePat (withMatched matchYMD) (text.data.length + 1) text.data).foldl
      (fun acc gm =>
        match normalizeDateYMD gm.1.1 gm.1.2.1 gm.1.2.2 with
        | some nd => acc ++ [(nd, gm.2)]
        | none => acc)
      ([] : List (String × String)))

/-- `ConsensusExtractor._detect_date_statistical`: collect every normalized
date (with its original text), sort descending, return the most recent. -/
def detectDateStatistical (text : String) : Option DetectorResult :=
  match (allDatesOf text).insertionSort (fun a b => pairLeStr b a = true) with
  | [] => Option.none
  | best :: _ =>
    some ⟨"statistical", .str best.1, 13/20,
      "Most recent date found: " ++ best.2, Option.none⟩

/-- `ConsensusExtractor.extract_date`. -/
def extractDate (text : String) : ConsensusResult :=
  buildConsensus "date"
    ([detectDateRegex text, detectDateProximity text,
      detectDatePosition text, detectDateStatistical text].filterMap id)

/-- The shape `^\d{4}-\d{2}-\d{2}$`. -/
def isoShape (s : String) : Bool :=
  match s.data with
  | [a, b, c, d, e, f, g, h, i, j] =>
    a.isDigit && b.isDigit && c.isDigit && d.isDigit && e = '-' &&
      f.isDigit && g.isDigit && h = '-' && i.isDigit && j.isDigit
  | _ => false

def digitVal (c : Char) : Nat := c.toNat - '0'.toNat

/-- Reparse a `YYYY-MM-DD` string into its numeric components. -/
def reparseIso (s : String) : Option (Nat × Nat × Nat) :=
  match s.data with
  | [a, b, c, d, '-', e, f, '-', g, h] =>
    if (a.isDigit && b.isDigit && c.isDigit && d.isDigit &&
        e.isDigit && f.isDigit && g.isDigit && h.isDigit) then
      some (((digitVal a * 10 + digitVal b) * 10 + digitVal c) * 10 + digitVal d,
        digitVal e * 10 + digitVal f, digitVal g * 10 + digitVal h)
    else Option.none
  | _ => Option.none

/-! ### Text cleaner: currency normalization (text_cleaner) -/

/-- Case-insensitive literal match; returns the rest of the input. -/
def stripLitCI : List Char → List Char → Option (List Char)
  | [], s => some s
  | l :: lt, c :: ct => if pyToLower c = pyToLower l then stripLitCI lt ct else Option.none
  | _ :: _, [] => Option.none

/-- `\b` before a word character: the previous character must be absent or a
non-word character. -/
def boundaryBefore (prev : Option Char) : Bool :=
  match prev with
  | some c => ¬ isWordChar c
  | none => true

/-- `re.sub` scan: leftmost, non-overlapping; the replacement is produced by
the matcher; scanning resumes after the matched portion of the original
text. -/
def subScan (m : Option Char → List Char → Option (List Char × Nat)) :
    Nat → Option Char → List Char → List Char
  | 0, _, s => s
  | _ + 1, _, [] => []
  | fuel + 1, prev, c :: rest =>
    match m prev (c :: rest) with
    | some (rep, k) =>
      let k' := max k 1
      let prev' :=
        match ((c :: rest).take k').getLast? with
        | some l => some l
        | none => prev
      rep ++ subScan m fuel prev' ((c :: rest).drop k')
    | none => c :: subScan m fuel (some c) rest

def pySub (m : Option Char → List Char → Option (List Char × Nat))
    (s : List Char) : List Char :=
  subScan m (s.length + 1) Option.none s

/-- `\b{lit}\.?\s*` (IGNORECASE) → `"KES "`, for `lit` ∈ {KSH, KSHS, Kes}. -/
def matchKshLike (lit : List Char) (prev : Option Char) (s : List Char) :
    Option (List Char × Nat) :=
  if boundaryBefore prev then
    match stripLitCI lit s with
    | some r1 =>
      let dot : Nat :=
        match r1 with
        | '.' :: _ => 1
        | _ => 0
      let ws := (r1.drop dot).takeWhile (pyIsSpace ·)
      some ("KES ".data, lit.length + dot + ws.length)
    | none => Option.none
  else Option.none

/-- `\bUS\$\s*` (IGNORECASE) → `"USD "`. -/
def matchUSDollar (prev : Option Char) (s : List Char) : Option (List Char × Nat) :=
  if boundaryBefore prev then
    match stripLitCI "US".data s with
    | some ('$' :: r1) =>
      let ws := r1.takeWhile (pyIsSpace ·)
      some ("USD ".data, 3 + ws.length)
    | _ => Option.none
  else Option.none

/-- `\bUSD\s*\$` (IGNORECASE) → `"USD "`. -/
def matchUSDdollar (prev : Option Char) (s : List Char) : Option (List Char × Nat) :=
  if boundaryBefore prev then
    match stripLitCI "USD".data s with
    | some r1 =>
      let ws := r1.takeWhile (pyIsSpace ·)
      match r1.drop ws.length with
      | '$' :: _ => some ("USD ".data, 3 + ws.length + 1)
      | _ => Option.none
    | none => Option.none
  else Option.none

/-- `\$\s+(\d)` → `$` followed by the digit. -/
def matchDollarSpaceDigit (_prev : Option Char) (s : List Char) :
    Option (List Char × Nat) :=
  match s with
  | '$' :: r1 =>
    let ws := r1.takeWhile (pyIsSpace ·)
    if ws.isEmpty then Option.none
    else
      match r1.drop ws.length with
      | d :: _ => if d.isDigit then some (['$', d], 1 + ws.length + 1) else Option.none
      | [] => Option.none
  | _ => Option.none

/-- `(\d)\s+\$` → the digit, one space, `$`. -/
def matchDigitSpaceDollar (_prev : Option Char) (s : List Char) :
    Option (List Char × Nat) :=
  match s with
  | d :: r1 =>
    if d.isDigit then
      let ws := r1.takeWhile (pyIsSpace ·)
      if ws.isEmpty then Option.none
      else
        match r1.drop ws.length with
        | '$' :: _ => some ([d, ' ', '$'], 1 + ws.length + 1)
        | _ => Option.none
    else Option.none
  | [] => Option.none

/-- `OCRTextCleaner.CURRENCY_PATTERNS`, in source order, paired with their
descriptions. -/
def CURRENCY_RULES :
    List ((Option Char → List Char → Option (List Char × Nat)) × String) :=
  [(matchKshLike "KSH".data, "KSH→KES"),
   (matchKshLike "KSHS".data, "KSHS→KES"),
   (matchKshLike "Kes".data, "Kes→KES"),
   (matchUSDollar, "US$→USD"),
   (matchUSDdollar, "USD$→USD"),
   (matchDollarSpaceDigit, "remove space after $"),
   (matchDigitSpaceDollar, "normalize space before $")]

/-- One rule application of `OCRTextCleaner._normalize_currency`:
substitute, and log the description when the text changed. -/
def currencyStep (st : List Char × List String)
    (rule : (Option Char → List Char → Option (List Char × Nat)) × String) :
    List Char × List String :=
  if pySub rule.1 st.1 ≠ st.1 then (pySub rule.1 st.1, st.2 ++ [rule.2]) else st

/-- `OCRTextCleaner._normalize_currency`: apply each rule over the whole
text in order; record a correction whenever the text changed. -/
def normalizeCurrencyFull (text : String) : String × List String :=
  (String.mk (CURRENCY_RULES.foldl currencyStep (text.data, [])).1,
   (CURRENCY_RULES.foldl currencyStep (text.data, [])).2)

def normalizeCurrency (text : String) : String := (normalizeCurrencyFull text).1

/-! ### Learning memory (learning_memory) -/

/-- Python `str.split()` (no argument): split on whitespace runs, dropping
empty pieces. -/
def pySplitWs (s : String) : List String :=
  ((splitOnPred (pyIsSpace ·) s.data).map String.mk).filter (fun w => ¬ w.isEmpty)

/-- Python `str.isdigit` (ASCII embedding). -/
def pyIsDigitStr (w : String) : Bool := ¬ w.data.isEmpty && w.data.all (·.isDigit)

/-- Python `str.isalpha` (ASCII embedding). -/
def pyIsAlphaStr (w : String) : Bool := ¬ w.data.isEmpty && w.data.all (·.isAlpha)

/-- Truthiness of an optional string (`if s:`): present and non-empty. -/
def pyTruthyStr (o : Option String) : Bool :=
  match o with
  | some s => ¬ s.isEmpty
  | none => false

/-- `collections.Counter` content: word ↦ count, in first-occurrence order. -/
def incrCount : List (String × Nat) → String → List (String × Nat)
  | [], w => [(w, 1)]
  | (k, n) :: rest, w =>
    if k = w then (k, n + 1) :: rest else (k, n) :: incrCount rest w

/-- `Counter(ws).most_common(k)`: sort by count descending (stable, so ties
keep first-occurrence order) and take the first `k` words. -/
def mostCommonWords (ws : List String) (k : Nat) : List String :=
  (((ws.foldl incrCount []).insertionSort (fun a b => b.2 ≤ a.2)).take k).map (·.1)

/-- `LearningMemory._extract_keywords` (max_keywords = 10 at every call
site): alphabetic words longer than three characters, ranked by frequency. -/
def extractKeywords (text : String) (maxKeywords : Nat) : List String :=
  mostCommonWords
    ((pySplitWs text).filter (fun w => 3 < w.length && !pyIsDigitStr w && pyIsAlphaStr w))
    maxKeywords

/-- `learning_memory.DocumentFingerprint`. -/
structure LMFingerprint where
  line_count : Nat
  header_keywords : List String
  footer_keywords : List String
  has_table : Bool
  approximate_word_count : Nat
  document_type : String
  vendor_name : Option String
  currency : String
  fingerprint_hash : String
deriving DecidableEq, Repr

/-- `DocumentFingerprint._compute_hash`. Modelled from the spec: the source
digests the canonical component string with `hashlib.md5` (standard-library
code not under src/); the spec fixes only that the hash is a deterministic
digest of this canonical string, so the digest is modelled as the canonical
string itself (it is used by the engine exclusively as a lookup key). -/
def computeFingerprintHash (line_count : Nat) (header_keywords : List String)
    (document_type : String) (vendor_name : Option String) : String :=
  String.intercalate "|"
    [toString (line_count / 5 * 5),
     String.intercalate "," ((header_keywords.take 5).insertionSort (fun a b => pyStrLe a b = true)),
     document_type,
     vendor_name.getD ""]

/-- `LearningMemory.create_fingerprint`. -/
def createFingerprint (text document_type : String) (vendor_name : Option String)
    (currency : String) (has_table : Bool) : LMFingerprint :=
  let lines := pySplitLines text
  let line_count := lines.length
  let word_count := (pySplitWs text).length
  let headerEnd := max (3 * line_count / 20) 3
  let header_keywords := extractKeywords (pyLower (String.intercalate " " (lines.take headerEnd))) 10
  let footerStart := 4 * line_count / 5
  let footer_keywords := extractKeywords (pyLower (String.intercalate " " (lines.drop footerStart))) 10
  ⟨line_count, header_keywords, footer_keywords, has_table, word_count, document_type,
    vendor_name, currency,
    computeFingerprintHash line_count header_keywords document_type vendor_name⟩

/-- `learning_memory.FieldPosition`. -/
structure LMFieldPosition where
  field_name : String
  zone : String
  line_percentage : ℚ
  alignment : String
  near_keywords : List String
  confidence_boost : ℚ
deriving DecidableEq, Repr

/-- `learning_memory.UserCorrection` (the original value may be `None` when
the field was absent). -/
structure LMUserCorrection where
  field_name : String
  original_value : Option Value
  corrected_value : Value
  document_type : String
  vendor_name : Option String
  timestamp : String
  correction_count : Nat
deriving DecidableEq, Repr

/-- `learning_memory.VendorRule`. -/
structure LMVendorRule where
  vendor_name : String
  field_name : String
  extraction_hint : String
  expected_format : String
  confidence_boost : ℚ
deriving DecidableEq, Repr

/-- `learning_memory.LearningMemoryEntry`. -/
structure LMEntry where
  fingerprint : LMFingerprint
  field_positions : List LMFieldPosition
  corrections : List LMUserCorrection
  vendor_rules : List LMVendorRule
  times_seen : Nat
  times_confirmed : Nat
  last_seen : String
  first_seen : String
deriving DecidableEq, Repr

/-- `learning_memory.LearningMemory` state: entries and vendor index are
insertion-ordered dicts. -/
structure LearningMemory where
  storage_path : String
  entries : List (String × LMEntry)
  vendor_index : List (String × List String)
deriving Repr

/-- `LearningMemory.MAX_ENTRIES`. -/
def MAX_ENTRIES : Nat := 1000

/-- The pruning key `times_seen + times_confirmed * 2`. -/
def entryUtility (e : LMEntry) : Nat := e.times_seen + e.times_confirmed * 2

def entriesLookup (l : List (String × LMEntry)) (k : String) : Option LMEntry :=
  match l with
  | [] => Option.none
  | (k', e) :: rest => if k' = k then some e else entriesLookup rest k

/-- In-place update of the entry stored under an existing key (Python
mutates the one object held by the dict; keys are unique). -/
def entriesUpdate (l : List (String × LMEntry)) (k : String) (f : LMEntry → LMEntry) :
    List (String × LMEntry) :=
  l.map (fun p => if p.1 = k then (p.1, f p.2) else p)

def assocStrings (l : List (String × List String)) (k : String) : Option (List String) :=
  match l with
  | [] => Option.none
  | (k', v) :: rest => if k' = k then some v else assocStrings rest k

def assocStringsSet (l : List (String × List String)) (k : String) (v : List String) :
    List (String × List String) :=
  l.map (fun p => if p.1 = k then (p.1, v) else p)

/-- The vendor-index maintenance of `learn_from_document`: ensure the bucket
exists and append the hash if it is not yet present. -/
def vendorIndexAdd (vi : List (String × List String)) (vl hash_key : String) :
    List (String × List String) :=
  match assocStrings vi vl with
  | some hs => if hs.contains hash_key then vi else assocStringsSet vi vl (hs ++ [hash_key])
  | none => vi ++ [(vl, [hash_key])]

/-- The entries kept by `_prune_old_entries`: sort by utility descending
(stable) and keep the first `MAX_ENTRIES` (`dict(sorted_entries[:MAX])` is
that list, the dict keys being unique). -/
def prunedKeep (entries : List (String × LMEntry)) : List (String × LMEntry) :=
  (entries.insertionSort (fun a b => entryUtility b.2 ≤ entryUtility a.2)).take MAX_ENTRIES

/-- The `removed_hashes` of `_prune_old_entries`. -/
def prunedRemovedKeys (entries : List (String × LMEntry)) : List String :=
  (entries.map (·.1)).filter (fun k => ¬ ((prunedKeep entries).map (·.1)).contains k)

/-- `LearningMemory._prune_old_entries`: keep the `MAX_ENTRIES` best entries
and drop removed hashes from the vendor index. -/
def pruneOldEntries (m : LearningMemory) : LearningMemory :=
  if m.entries.length ≤ MAX_ENTRIES then m
  else
    ⟨m.storage_path, prunedKeep m.entries,
      m.vendor_index.map (fun p =>
        (p.1, p.2.filter (fun h => ¬ (prunedRemovedKeys m.entries).contains h)))⟩

/-- The optional per-field position information passed to
`learn_from_document` (a dict with optional keys, read with defaults). -/
structure PosInfo where
  zone : Option String
  line_percentage : Option ℚ
  alignment : Option String
  near_keywords : Option (List String)
deriving DecidableEq, Repr

/-- The repeat-sighting update of `learn_from_document` on the one entry
held under a known fingerprint hash. -/
def learnTouch (user_confirmed : Bool) (now : String) (e : LMEntry) : LMEntry :=
  { e with
      times_seen := e.times_seen + 1
      last_seen := now
      times_confirmed := if user_confirmed then e.times_confirmed + 1 else e.times_confirmed }

/-- The `LearningMemoryEntry` built for a first sighting. -/
def learnNewEntry (fingerprint : LMFingerprint)
    (field_positions : Option (List (String × PosInfo))) (user_confirmed : Bool)
    (now : String) : LMEntry :=
  let positions :=
    match field_positions with
    | some fps =>
      fps.map (fun p =>
        (⟨p.1, (p.2.zone).getD "body", (p.2.line_percentage).getD (1/2),
          (p.2.alignment).getD "left", (p.2.near_keywords).getD [], 1/10⟩ : LMFieldPosition))
    | none => []
  ⟨fingerprint, positions, [], [], 1, if user_confirmed then 1 else 0, now, now⟩

/-- The entries dict just after the update/insert step of
`learn_from_document`, before the cap is enforced. -/
def learnUpdatedEntries (m : LearningMemory) (fingerprint : LMFingerprint)
    (field_positions : Option (List (String × PosInfo))) (user_confirmed : Bool)
    (now : String) : List (String × LMEntry) :=
  match entriesLookup m.entries fingerprint.fingerprint_hash with
  | some _ =>
    entriesUpdate m.entries fingerprint.fingerprint_hash (learnTouch user_confirmed now)
  | none =>
    m.entries ++
      [(fingerprint.fingerprint_hash,
        learnNewEntry fingerprint field_positions user_confirmed now)]

/-- The vendor-index state after `learn_from_document` (only a first
sighting of a truthy vendor name touches the index). -/
def learnVendorIndex (m : LearningMemory) (fingerprint : LMFingerprint) :
    List (String × List String) :=
  match entriesLookup m.entries fingerprint.fingerprint_hash with
  | some _ => m.vendor_index
  | none =>
    if pyTruthyStr fingerprint.vendor_name then
      vendorIndexAdd m.vendor_index (pyLower (fingerprint.vendor_name.getD ""))
        fingerprint.fingerprint_hash
    else m.vendor_index

/-- `LearningMemory.learn_from_document` (the `extracted_fields` argument is
accepted but, as in the source, not read). The final `_save` leaves the
in-memory state unchanged. -/
def learnFromDocument (m : LearningMemory) (fingerprint : LMFingerprint)
    (_extracted_fields : List (String × Value))
    (field_positions : Option (List (String × PosInfo))) (user_confirmed : Bool)
    (now : String) : LearningMemory :=
  if MAX_ENTRIES <
      (learnUpdatedEntries m fingerprint field_positions user_confirmed now).length then
    pruneOldEntries
      ⟨m.storage_path, learnUpdatedEntries m fingerprint field_positions user_confirmed now,
        learnVendorIndex m fingerprint⟩
  else
    ⟨m.storage_path, learnUpdatedEntries m fingerprint field_positions user_confirmed now,
      learnVendorIndex m fingerprint⟩

/-- Python `str()` as used in the duplicate-correction comparison of
`record_correction` (numeric reprs are idealised; the comparison is only an
equality test between reprs). -/
def pyStrOfOptValue : Option Value → String
  | Option.none => "None"
  | some (.str s) => s
  | some (.num q) => toString q

def updateFirstCorrection (p : LMUserCorrection → Bool) (f : LMUserCorrection → LMUserCorrection) :
    List LMUserCorrection → List LMUserCorrection
  | [] => []
  | c :: rest => if p c then f c :: rest else c :: updateFirstCorrection p f rest

/-- `LearningMemory.record_correction`: only acts when the fingerprint hash
is a known entry; collapses repeated identical corrections. -/
def recordCorrection (m : LearningMemory) (fingerprint : LMFingerprint)
    (field_name : String) (original_value : Option Value) (corrected_value : Value)
    (now : String) : LearningMemory :=
  let hash_key := fingerprint.fingerprint_hash
  match entriesLookup m.entries hash_key with
  | some e =>
    let sameCorr : LMUserCorrection → Bool := fun c =>
      c.field_name == field_name &&
        pyStrOfOptValue c.original_value == pyStrOfOptValue original_value
    let newCorrections :=
      if (e.corrections.find? sameCorr).isSome then
        updateFirstCorrection sameCorr
          (fun c =>
            { c with
                corrected_value := corrected_value
                correction_count := c.correction_count + 1
                timestamp := now })
          e.corrections
      else
        e.corrections ++
          [⟨field_name, original_value, corrected_value, fingerprint.document_type,
            fingerprint.vendor_name, now, 1⟩]
    ⟨m.storage_path,
      entriesUpdate m.entries hash_key (fun e' => { e' with corrections := newCorrections }),
      m.vendor_index⟩
  | none => m

/-! ### Persistence (`LearningMemory._save`) -/

/-- The single JSON-ish structure serialized by `_save`. -/
inductive Json where
  | str (s : String)
  | int (n : ℤ)
  | rat (q : ℚ)
  | bool (b : Bool)
  | null
  | arr (l : List Json)
  | obj (l : List (String × Json))

def jsonOfValue : Option Value → Json
  | Option.none => .null
  | some (.num q) => .rat q
  | some (.str s) => .str s

def jsonOfOptStr : Option String → Json
  | Option.none => .null
  | some s => .str s

def fingerprintToJson (fp : LMFingerprint) : Json :=
  .obj [("line_count", .int fp.line_count), ("header_keywords", .arr (fp.header_keywords.map .str)),
    ("footer_keywords", .arr (fp.footer_keywords.map .str)), ("has_table", .bool fp.has_table),
    ("approximate_word_count", .int fp.approximate_word_count),
    ("document_type", .str fp.document_type), ("vendor_name", jsonOfOptStr fp.vendor_name),
    ("currency", .str fp.currency), ("fingerprint_hash", .str fp.fingerprint_hash)]

def fieldPositionToJson (p : LMFieldPosition) : Json :=
  .obj [("field_name", .str p.field_name), ("zone", .str p.zone),
    ("line_percentage", .rat p.line_percentage), ("alignment", .str p.alignment),
    ("near_keywords", .arr (p.near_keywords.map .str)), ("confidence_boost", .rat p.confidence_boost)]

def correctionToJson (c : LMUserCorrection) : Json :=
  .obj [("field_name", .str c.field_name), ("original_value", jsonOfValue c.original_value),
    ("corrected_value", jsonOfValue (some c.corrected_value)),
    ("document_type", .str c.document_type), ("vendor_name", jsonOfOptStr c.vendor_name),
    ("timestamp", .str c.timestamp), ("correction_count", .int c.correction_count)]

def vendorRuleToJson (r : LMVendorRule) : Json :=
  .obj [("vendor_name", .str r.vendor_name), ("field_name", .str r.field_name),
    ("extraction_hint", .str r.extraction_hint), ("expected_format", .str r.expected_format),
    ("confidence_boost", .rat r.confidence_boost)]

/-- `LearningMemoryEntry.to_dict`. -/
def entryToJson (e : LMEntry) : Json :=
  .obj [("fingerprint", fingerprintToJson e.fingerprint),
    ("field_positions", .arr (e.field_positions.map fieldPositionToJson)),
    ("corrections", .arr (e.corrections.map correctionToJson)),
    ("vendor_rules", .arr (e.vendor_rules.map vendorRuleToJson)),
    ("times_seen", .int e.times_seen), ("times_confirmed", .int e.times_confirmed),
    ("last_seen", .str e.last_seen), ("first_seen", .str e.first_seen)]

/-- The full structure handed to `json.dump` by `_save`. -/
def memoryToJson (m : LearningMemory) (now : String) : Json :=
  .obj [("version", .str "1.0"), ("updated_at", .str now),
    ("entries", .obj (m.entries.map (fun p => (p.1, entryToJson p.2))))]

/-- File-system effects. -/
inductive FileOp where
  | mkdirParents (path : String)
  | writeFile (path : String) (contents : Json)
  | rename (src dst : String)

def FileOp.isRename : FileOp → Bool
  | .rename _ _ => true
  | _ => false

/-- `self.storage_path.parent` as a string. -/
def parentDir (p : String) : String :=
  String.intercalate "/" (((splitOnChar '/' p.data).map String.mk).dropLast)

/-- The file operations attempted by `LearningMemory._save`, in order:
create the parent directory, then open the storage path itself with mode
`'w'` and dump the whole serialized state into it. -/
def saveOps (m : LearningMemory) (now : String) : List FileOp :=
  [.mkdirParents (parentDir m.storage_path),
   .writeFile m.storage_path (memoryToJson m now)]

/-- `LearningMemory._save`: `performed` is how many of the file operations
completed before an exception (if any); the `except` branch logs and
swallows the error, and the in-memory state is returned unchanged in every
case. -/
def lmSave (m : LearningMemory) (now : String) (performed : Nat) :
    LearningMemory × List FileOp :=
  (m, (saveOps m now).take performed)

/-! ### Confirmation planner (confirmation_flow) -/

/-- The string tag of a consensus level (`ConsensusLevel.value`). -/
def consensusLevelStr : ConsensusLevel → String
  | .strong => "strong"
  | .moderate => "moderate"
  | .weak => "weak"
  | .none => "none"

/-- `ConsensusResult.to_dict()` output, as consumed by the planner (the
orchestrator converts every `ConsensusResult` with `to_dict` before calling
`request_user_confirmation`): the dict carries these keys and, notably, no
`reason` and no `reason_text` key. `all_candidates` is the list of
`{"value": v, "votes": c}` dicts. -/
structure ConsensusDict where
  field_name : String
  value : Option Value
  consensus_level : String
  agreement : String
  agreeing_detectors : List String
  dissenting_detectors : List String
  needs_confirmation : Bool
  confirmation_reason : Option String
  all_candidates : List (Value × Nat)
deriving DecidableEq, Repr

/-- `ConsensusResult.to_dict`. -/
def consensusToDict (r : ConsensusResult) : ConsensusDict :=
  ⟨r.field_name, r.final_value, consensusLevelStr r.consensus_level,
    toString r.agreement_count ++ "/" ++ toString r.total_detectors,
    r.agreeing_detectors, r.dissenting_detectors, r.needs_confirmation,
    r.confirmation_reason, r.all_candidates⟩

/-- `confirmation_flow.ConfirmationReason`. -/
inductive ConfirmationReason where
  | low_confidence
  | conflicting_values
  | missing_critical_field
  | unusual_value
  | ocr_quality_poor
  | multiple_candidates
deriving DecidableEq, Repr

/-- `confirmation_flow.FieldPriority`. -/
inductive FieldPriority where
  | critical
  | high
  | medium
  | low
deriving DecidableEq, Repr

/-- `confirmation_flow.ConfirmationCandidate`. -/
structure ConfirmationCandidate where
  value : Value
  source : String
  confidence : ℚ
  evidence : String
deriving DecidableEq, Repr

/-- `confirmation_flow.FieldConfirmationRequest`. -/
structure FieldConfirmationRequest where
  field_name : String
  display_name : String
  current_value : Option Value
  candidates : List ConfirmationCandidate
  reason : ConfirmationReason
  reason_text : String
  priority : FieldPriority
  context : String
  allow_custom : Bool
deriving DecidableEq, Repr

/-- `confirmation_flow.ConfirmationRequest`. -/
structure ConfirmationRequest where
  needs_confirmation : Bool
  fields : List FieldConfirmationRequest
  document_id : String
  document_type : String
  overall_confidence : ℚ
  summary : String
  created_at : String
deriving DecidableEq, Repr

/-- `ConfirmationManager.CONFIDENCE_THRESHOLD_HIGH`. -/
def CONFIDENCE_THRESHOLD_HIGH : ℚ := 17/20

/-- `ConfirmationManager.CONFIDENCE_THRESHOLD_LOW`: the planner's only
confidence cutoff, a class constant (the engine's configured
`confidence_threshold` is not consulted by the planner). -/
def CONFIDENCE_THRESHOLD_LOW : ℚ := 1/2

/-- `ConfirmationManager.FIELD_PRIORITIES` with its `.get(…, MEDIUM)`. -/
def fieldPriorityOf (field_name : String) : FieldPriority :=
  (([("total_amount", FieldPriority.critical), ("date", FieldPriority.high),
     ("vendor", FieldPriority.high), ("currency", FieldPriority.medium),
     ("invoice_number", FieldPriority.high), ("tax_amount", FieldPriority.medium)] :
      List (String × FieldPriority)).lookup field_name).getD .medium

/-- `ConfirmationManager.FIELD_DISPLAY_NAMES` with its `.get(…, field_name)`. -/
def displayNameOf (field_name : String) : String :=
  (([("total_amount", "Total Amount"), ("date", "Document Date"),
     ("vendor", "Vendor/Business Name"), ("currency", "Currency"),
     ("invoice_number", "Invoice Number"), ("tax_amount", "Tax Amount"),
     ("subtotal", "Subtotal")] : List (String × String)).lookup field_name).getD field_name

/-- The per-field context keyword table of `_get_context_for_field`. -/
def contextKeywords (field_name : String) : List String :=
  (([("total_amount", ["total", "amount", "sum", "pay"]),
     ("date", ["date", "dated"]),
     ("vendor", ([] : List String)),
     ("currency", ["kes", "usd", "eur", "ksh", "$", "€"])] :
      List (String × List String)).lookup field_name).getD []

/-- `ConfirmationManager._get_context_for_field` (context_lines = 3). -/
def getContextForField (field_name raw_text : String) : String :=
  let lines := pySplitLines raw_text
  let fieldKeywords := contextKeywords field_name
  if fieldKeywords.isEmpty then
    if field_name = "vendor" then String.intercalate "\n" (lines.take 5)
    else String.intercalate "\n" (lines.take 3)
  else
    match
      lines.enum.findSome? (fun p =>
        if fieldKeywords.any (fun kw => strIn kw.data (p.2.data.map pyToLower)) then some p.1
        else Option.none)
    with
    | some i =>
      let start := i - 1
      let stop := min lines.length (i + 3)
      String.intercalate "\n" ((lines.drop start).take (stop - start))
    | none => String.intercalate "\n" (lines.take 3)

/-- Values looked up in the `extracted_fields` dict, which may itself store
`None` under a key: `extracted_fields.get(k)` collapses "absent" and
"stored None". -/
def fieldsGet (fs : List (String × Option Value)) (k : String) : Option Value :=
  match fs.lookup k with
  | some v => v
  | none => Option.none

/-- `ConfirmationManager._evaluate_field` on a `to_dict()`-format consensus
dict (the live branch on the orchestrator path): emits a request exactly
when the dict's `needs_confirmation` is set. Since `to_dict` produces no
`reason` / `reason_text` / per-candidate `confidence` / `evidence` keys, the
dict-branch defaults apply: reason `low_confidence`, reason text
`"Please verify this value"`, candidate confidence 0.5, candidate evidence
`"Detected value"`. -/
def evaluateField (field_name : String) (consensus : ConsensusDict)
    (current_value : Option Value) (raw_text : String) :
    Option FieldConfirmationRequest :=
  if consensus.needs_confirmation then
    some ⟨field_name, displayNameOf field_name, current_value,
      (consensus.all_candidates.take 5).map (fun c =>
        (⟨c.1, toString c.2 ++ " detectors", 1/2, "Detected value"⟩ : ConfirmationCandidate)),
      .low_confidence, "Please verify this value", fieldPriorityOf field_name,
      getContextForField field_name raw_text, true⟩
  else Option.none

def criticalFields : List String := ["total_amount", "date", "vendor"]

/-- The per-field loop of `evaluate_extraction`. -/
def fieldLevelRequests (consensus_results : List (String × ConsensusDict))
    (extracted_fields : List (String × Option Value)) (raw_text : String) :
    List FieldConfirmationRequest :=
  consensus_results.foldl
    (fun acc p =>
      match evaluateField p.1 p.2 (fieldsGet extracted_fields p.1) raw_text with
      | some r => acc ++ [r]
      | none => acc)
    []

/-- The missing-critical-field loop of `evaluate_extraction`. -/
def addMissingCritical (raw_text : String)
    (extracted_fields : List (String × Option Value))
    (acc : List FieldConfirmationRequest) : List FieldConfirmationRequest :=
  criticalFields.foldl
    (fun acc' f =>
      if fieldsGet extracted_fields f = Option.none then
        if acc'.any (fun r => r.field_name == f) then acc'
        else
          acc' ++
            [⟨f, displayNameOf f, Option.none, [], .missing_critical_field,
              "Could not extract " ++ f, fieldPriorityOf f, getContextForField f raw_text,
              true⟩]
      else acc')
    acc

/-- Python `f"{q:.0%}"` (idealised rounding on the rational value). -/
def pctStr (q : ℚ) : String := toString (roundHalfEven (q * 100)) ++ "%"

/-- The request the low-overall-confidence block emits for one critical
field: its single candidate carries source `extraction` and the overall
confidence. -/
def lcRequest (overall_confidence : ℚ) (raw_text f : String) (v : Value) :
    FieldConfirmationRequest :=
  ⟨f, displayNameOf f, some v,
    [⟨v, "extraction", overall_confidence, "Automatically extracted value"⟩],
    .low_confidence, "Low overall confidence (" ++ pctStr overall_confidence ++ ")",
    fieldPriorityOf f, getContextForField f raw_text, true⟩

/-- One step of the low-overall-confidence loop. -/
def lcStep (overall_confidence : ℚ) (raw_text : String)
    (extracted_fields : List (String × Option Value))
    (acc : List FieldConfirmationRequest) (f : String) : List FieldConfirmationRequest :=
  match fieldsGet extracted_fields f with
  | some v => acc ++ [lcRequest overall_confidence raw_text f v]
  | none => acc

/-- The low-overall-confidence block of `evaluate_extraction`: fires only
when the confidence is below `CONFIDENCE_THRESHOLD_LOW` = 0.50 and no field
request has been produced so far. -/
def addLowConfidence (overall_confidence : ℚ) (raw_text : String)
    (extracted_fields : List (String × Option Value))
    (acc : List FieldConfirmationRequest) : List FieldConfirmationRequest :=
  if overall_confidence < CONFIDENCE_THRESHOLD_LOW ∧ acc = [] then
    criticalFields.foldl (lcStep overall_confidence raw_text extracted_fields) acc
  else acc

def priorityRank : FieldPriority → Nat
  | .critical => 0
  | .high => 1
  | .medium => 2
  | .low => 3

def buildSummary (fs : List FieldConfirmationRequest) : String :=
  match fs with
  | [] => "All fields extracted with high confidence."
  | [f] => "Please verify: " ++ f.display_name
  | _ =>
    let base := "Please verify: " ++ String.intercalate ", " ((fs.take 3).map (·.display_name))
    if 3 < fs.length then base ++ " and " ++ toString (fs.length - 3) ++ " more" else base

/-- `ConfirmationManager.evaluate_extraction` (also the body of the
`request_user_confirmation` convenience function). -/
def evaluateExtraction (document_id document_type : String)
    (extracted_fields : List (String × Option Value))
    (consensus_results : List (String × ConsensusDict))
    (overall_confidence : ℚ) (raw_text : String) (now : String) : ConfirmationRequest :=
  let f1 := fieldLevelRequests consensus_results extracted_fields raw_text
  let f2 := addMissingCritical raw_text extracted_fields f1
  let f3 := addLowConfidence overall_confidence raw_text extracted_fields f2
  let sortedF := f3.insertionSort (fun a b => priorityRank a.priority ≤ priorityRank b.priority)
  ⟨¬ sortedF.isEmpty, sortedF, document_id, document_type, overall_confidence,
    buildSummary sortedF, now⟩

/-! ### Enterprise confidence levels (enterprise_confidence) -/

/-- `enterprise_confidence.ConfidenceLevel`. -/
inductive ConfLevel where
  | verified
  | high
  | medium
  | low
  | very_low
  | unreliable
deriving DecidableEq, Repr

/-- `ConfidenceLevel.from_score`. -/
def confLevelFromScore (score : ℚ) : ConfLevel :=
  if 19/20 ≤ score then .verified
  else if 4/5 ≤ score then .high
  else if 3/5 ≤ score then .medium
  else if 2/5 ≤ score then .low
  else if 1/5 ≤ score then .very_low
  else .unreliable

/-! ### Orchestrator pieces (enterprise_intelligence) -/

/-- `enterprise_intelligence.EnterpriseExtractionResult` (the breakdown and
layout dicts are carried as opaque JSON payloads; the engine only copies
them). -/
structure EnterpriseExtractionResult where
  document_id : String
  document_type : String
  raw_text : String
  cleaned_text : String
  extracted_fields : List (String × Value)
  consensus_details : List (String × ConsensusDict)
  confidence : ℚ
  confidence_level : String
  confidence_explanation : String
  confidence_breakdown : Json
  needs_confirmation : Bool
  confirmation_request : Option ConfirmationRequest
  memory_match_found : Bool
  memory_match_score : ℚ
  memory_explanation : String
  layout_analysis : Json
  warnings : List String
  suggestions : List String
  notes : List String
  processing_steps : List String
  success : Bool
  error : Option String

def fieldsGetV (fs : List (String × Value)) (k : String) : Option Value := fs.lookup k

/-- Dict assignment `fs[k] = v` (replace in place, or append a new key). -/
def fieldsSet (fs : List (String × Value)) (k : String) (v : Value) : List (String × Value) :=
  if (fs.lookup k).isSome then fs.map (fun p => if p.1 = k then (p.1, v) else p)
  else fs ++ [(k, v)]

/-- The `vendor_name=updated_fields.get('vendor')` argument of
`create_fingerprint` (a vendor value, when present, is a string on every
reachable path). -/
def vendorNameOf (fs : List (String × Value)) : Option String :=
  match fieldsGetV fs "vendor" with
  | some (.str s) => some s
  | _ => Option.none

/-- `updated_fields.get('currency', 'KES')`. -/
def currencyOf (fs : List (String × Value)) : String :=
  match fieldsGetV fs "currency" with
  | some (.str s) => s
  | _ => "KES"

/-- `EnterpriseDocumentIntelligence.apply_user_corrections`: apply each
correction in order (recording changed values in the learning memory), mark
the document as user-confirmed in memory, and return the updated result with
`confidence_level="verified"` and `confidence=min(0.99, original+0.15)`.
`learningEnabled` is the truthiness of `self.learning_memory`. -/
def applyUserCorrections (learningEnabled : Bool) (mem : LearningMemory)
    (document_id : String) (corrections : List (String × Value))
    (original_result : EnterpriseExtractionResult) (now : String) :
    EnterpriseExtractionResult × LearningMemory :=
  let step :=
    corrections.foldl
      (fun (st : List (String × Value) × LearningMemory) c =>
        let original_value := fieldsGetV st.1 c.1
        let updated := fieldsSet st.1 c.1 c.2
        let mem' :=
          if learningEnabled ∧ original_value ≠ some c.2 then
            recordCorrection st.2
              (createFingerprint original_result.cleaned_text original_result.document_type
                (vendorNameOf updated) (currencyOf updated) false)
              c.1 original_value c.2 now
          else st.2
        (updated, mem'))
      (original_result.extracted_fields, mem)
  let mem2 :=
    if learningEnabled then
      learnFromDocument step.2
        (createFingerprint original_result.cleaned_text original_result.document_type
          (vendorNameOf step.1) (currencyOf step.1) false)
        step.1 Option.none true now
    else step.2
  (⟨document_id, original_result.document_type, original_result.raw_text,
    original_result.cleaned_text, step.1, original_result.consensus_details,
    min (99/100) (original_result.confidence + 3/20), "verified",
    "User-verified extraction", original_result.confidence_breakdown, false, Option.none,
    true, 1, "User confirmed this document", original_result.layout_analysis, [], [],
    ["User corrections applied", "Updated " ++ toString corrections.length ++ " field(s)"],
    original_result.processing_steps ++ ["user_correction"], true, Option.none⟩, mem2)

/-- `EnterpriseDocumentIntelligence._update_memory`, as called by
`process_image` step 9 with `confirmation_request.needs_confirmation`:
`learn_from_document` receives `user_confirmed = not needs_confirmation`. -/
def updateMemory (learningEnabled : Bool) (mem : LearningMemory)
    (text document_type : String) (extracted_fields : List (String × Value))
    (needs_confirmation : Bool) (now : String) : LearningMemory :=
  if ¬ learningEnabled then mem
  else
    learnFromDocument mem
      (createFingerprint text document_type (vendorNameOf extracted_fields)
        (currencyOf extracted_fields) false)
      extracted_fields Option.none (¬ needs_confirmation) now

/-! ### Theory of the vote count (`_build_consensus`) -/

/-- The votes recorded under key `k` (empty when the key is absent). -/
def getVotes (vc : List (Value × List String)) (k : Value) : List String :=
  (assocVotes vc k).getD []

theorem getVotes_voteInsert (name : String) (v : Value)
    (acc : List (Value × List String)) (k : Value) :
    getVotes (voteInsert name v acc) k =
      if k = v then getVotes acc k ++ [name] else getVotes acc k := by
  induction acc with
  | nil =>
    simp only [voteInsert, getVotes, assocVotes]
    by_cases h : v = k
    · subst h
      simp
    · have h' : ¬ k = v := fun hh => h hh.symm
      simp [h, h']
  | cons p rest ih =>
    obtain ⟨k', ns⟩ := p
    by_cases h1 : k' = v
    · subst h1
      simp only [voteInsert, if_pos rfl]
      by_cases h2 : k' = k
      · subst h2
        simp [getVotes, assocVotes]
      · have h' : ¬ k = k' := fun hh => h2 hh.symm
        simp [getVotes, assocVotes, h2, h']
    · simp only [voteInsert, if_neg h1]
      by_cases h2 : k' = k
      · subst h2
        simp [getVotes, assocVotes, h1]
      · simp only [getVotes, assocVotes, if_neg h2]
        exact ih

theorem getVotes_voteCounts_aux (rs : List DetectorResult) :
    ∀ (acc : List (Value × List String)) (k : Value),
      getVotes
          (rs.foldl (fun a r => voteInsert r.detector_name (normalizeForComparison r.value) a)
            acc) k =
        getVotes acc k ++
          (rs.filter (fun r => normalizeForComparison r.value == k)).map (·.detector_name) := by
  induction rs with
  | nil => simp
  | cons r rs ih =>
    intro acc k
    simp only [List.foldl_cons, List.filter_cons]
    rw [ih]
    by_cases h : normalizeForComparison r.value = k
    · rw [getVotes_voteInsert, if_pos h.symm]
      simp [h, List.append_assoc]
    · have h' : ¬ k = normalizeForComparison r.value := fun hh => h hh.symm
      rw [getVotes_voteInsert, if_neg h']
      simp [h]

theorem getVotes_voteCounts (rs : List DetectorResult) (k : Value) :
    getVotes (voteCounts rs) k =
      (rs.filter (fun r => normalizeForComparison r.value == k)).map (·.detector_name) := by
  have h := getVotes_voteCounts_aux rs [] k
  simpa [voteCounts, getVotes, assocVotes] using h

theorem keys_voteInsert (name : String) (v : Value) (acc : List (Value × List String)) :
    (voteInsert name v acc).map Prod.fst =
      if v ∈ acc.map Prod.fst then acc.map Prod.fst else acc.map Prod.fst ++ [v] := by
  induction acc with
  | nil => simp [voteInsert]
  | cons p rest ih =>
    obtain ⟨k', ns⟩ := p
    by_cases h : k' = v
    · subst h
      simp [voteInsert]
    · have h' : ¬ v = k' := fun hh => h hh.symm
      simp only [voteInsert, if_neg h, List.map_cons, ih, List.mem_cons]
      by_cases h2 : v ∈ rest.map Prod.fst
      · simp [h2, h']
      · simp [h2, h']

theorem nodup_keys_voteInsert (name : String) (v : Value)
    (acc : List (Value × List String)) (h : (acc.map Prod.fst).Nodup) :
    ((voteInsert name v acc).map Prod.fst).Nodup := by
  rw [keys_voteInsert]
  by_cases hm : v ∈ acc.map Prod.fst
  · simpa [hm] using h
  · simp only [if_neg hm]
    simpa [List.nodup_append, hm] using h

theorem nodup_keys_voteCounts (rs : List DetectorResult) :
    ((voteCounts rs).map Prod.fst).Nodup := by
  have aux :
      ∀ (l : List DetectorResult) (acc : List (Value × List String)),
        (acc.map Prod.fst).Nodup →
        ((l.foldl (fun a r => voteInsert r.detector_name (normalizeForComparison r.value) a)
            acc).map Prod.fst).Nodup := by
    intro l
    induction l with
    | nil => intro acc h; simpa using h
    | cons r rest ih =>
      intro acc h
      exact ih _ (nodup_keys_voteInsert _ _ _ h)
  exact aux rs [] (by simp)

theorem assocVotes_eq_of_mem_nodup (vc : List (Value × List String)) (k : Value)
    (ns : List String) (hnd : (vc.map Prod.fst).Nodup) (hmem : (k, ns) ∈ vc) :
    assocVotes vc k = some ns := by
  induction vc with
  | nil => cases hmem
  | cons p rest ih =>
    obtain ⟨k', ns'⟩ := p
    rw [List.map_cons, List.nodup_cons] at hnd
    rcases List.mem_cons.mp hmem with heq | hmem'
    · injection heq with h1 h2
      subst h1
      subst h2
      simp [assocVotes]
    · have hmk : k ∈ rest.map Prod.fst := List.mem_map_of_mem Prod.fst hmem'
      have hk : ¬ k' = k := fun hkk => hnd.1 (by rw [hkk]; exact hmk)
      simp only [assocVotes, if_neg hk]
      exact ih hnd.2 hmem'

theorem votes_nonempty_voteInsert (name : String) (v : Value) :
    ∀ (acc : List (Value × List String)), (∀ p ∈ acc, p.2 ≠ []) →
      ∀ p ∈ voteInsert name v acc, p.2 ≠ [] := by
  intro acc
  induction acc with
  | nil =>
    intro _ p hp
    simp only [voteInsert, List.mem_singleton] at hp
    subst hp
    simp
  | cons q rest ih =>
    obtain ⟨k', ns⟩ := q
    intro h p hp
    by_cases h1 : k' = v
    · subst h1
      simp only [voteInsert, if_pos rfl] at hp
      rcases List.mem_cons.mp hp with heq | hp'
      · rw [heq]
        simp
      · exact h _ (List.mem_cons_of_mem _ hp')
    · simp only [voteInsert, if_neg h1] at hp
      rcases List.mem_cons.mp hp with heq | hp'
      · rw [heq]
        exact h _ (by simp)
      · exact ih (fun q hq => h q (List.mem_cons_of_mem _ hq)) p hp'

theorem votes_nonempty_voteCounts (rs : List DetectorResult)
    (p : Value × List String) (hp : p ∈ voteCounts rs) : p.2 ≠ [] := by
  have aux :
      ∀ (l : List DetectorResult) (acc : List (Value × List String)),
        (∀ q ∈ acc, q.2 ≠ []) →
        ∀ q ∈ l.foldl (fun a r => voteInsert r.detector_name (normalizeForComparison r.value) a)
            acc, q.2 ≠ [] := by
    intro l
    induction l with
    | nil => intro acc h; simpa using h
    | cons r rest ih =>
      intro acc h
      exact ih _ (fun q hq => votes_nonempty_voteInsert _ _ _ h q hq)
  exact aux rs [] (by simp) p hp

theorem voteCounts_ne_nil (rs : List DetectorResult) (h : rs ≠ []) : voteCounts rs ≠ [] := by
  obtain ⟨r, rest, rfl⟩ := List.exists_cons_of_ne_nil h
  intro hv
  have hg := getVotes_voteCounts (r :: rest) (normalizeForComparison r.value)
  rw [hv] at hg
  simp only [getVotes, assocVotes, Option.getD_none] at hg
  have hr : r ∈ (r :: rest).filter
      (fun x => normalizeForComparison x.value == normalizeForComparison r.value) := by
    simp [List.mem_filter]
  have := List.mem_map_of_mem (fun d : DetectorResult => d.detector_name) hr
  rw [← hg] at this
  cases this

theorem mem_sortedCandidates (rs : List DetectorResult) (p : Value × Nat) :
    p ∈ sortedCandidates rs ↔ p ∈ (voteCounts rs).map (fun q => (q.1, q.2.length)) := by
  unfold sortedCandidates
  exact List.mem_insertionSort _

theorem sortedCandidates_sorted (rs : List DetectorResult) :
    List.Pairwise (fun (a b : Value × Nat) => b.2 ≤ a.2) (sortedCandidates rs) := by
  haveI : IsTotal (Value × Nat) (fun a b => b.2 ≤ a.2) := ⟨fun a b => Nat.le_total b.2 a.2⟩
  haveI : IsTrans (Value × Nat) (fun a b => b.2 ≤ a.2) :=
    ⟨fun _ _ _ h1 h2 => Nat.le_trans h2 h1⟩
  exact List.sorted_insertionSort _ _

theorem sortedCandidates_ne_nil (rs : List DetectorResult) (h : rs ≠ []) :
    sortedCandidates rs ≠ [] := by
  intro hs
  have hlen : (sortedCandidates rs).length =
      ((voteCounts rs).map (fun p => (p.1, p.2.length))).length :=
    (List.perm_insertionSort _ _).length_eq
  rw [hs] at hlen
  have := voteCounts_ne_nil rs h
  simp only [List.length_nil, List.length_map] at hlen
  exact this (List.length_eq_zero.mp hlen.symm)

/-- The structural facts shared by the nonempty branch of `_build_consensus`:
the head of the sorted candidates is a key of the vote count whose vote list
has the claimed length, and some detector result realises that key. -/
theorem sortedCandidates_head_spec (rs : List DetectorResult) (bv : Value) (bc : Nat)
    (rest : List (Value × Nat)) (hs : sortedCandidates rs = (bv, bc) :: rest) :
    bc = (rs.filter (fun r => normalizeForComparison r.value == bv)).length ∧
      ∃ d ∈ rs, normalizeForComparison d.value = bv := by
  have hmem : (bv, bc) ∈ sortedCandidates rs := by
    rw [hs]; exact List.mem_cons_self _ _
  obtain ⟨⟨k, ns⟩, hq, heq⟩ := List.mem_map.mp ((mem_sortedCandidates rs _).mp hmem)
  have hk : k = bv := congrArg Prod.fst heq
  have hns : ns.length = bc := congrArg Prod.snd heq
  rw [hk] at hq
  have hgv : getVotes (voteCounts rs) bv = ns := by
    unfold getVotes
    rw [assocVotes_eq_of_mem_nodup _ _ _ (nodup_keys_voteCounts rs) hq]
    rfl
  have hfilter := getVotes_voteCounts rs bv
  rw [hgv] at hfilter
  constructor
  · rw [← hns, hfilter, List.length_map]
  · have hne : ns ≠ [] := votes_nonempty_voteCounts rs _ hq
    have : (rs.filter (fun r => normalizeForComparison r.value == bv)) ≠ [] := by
      intro hnil
      rw [hfilter, hnil] at hne
      exact hne rfl
    obtain ⟨d, rest', hd⟩ := List.exists_cons_of_ne_nil this
    have : d ∈ rs.filter (fun r => normalizeForComparison r.value == bv) := by
      rw [hd]; exact List.mem_cons_self _ _
    have hmf := List.mem_filter.mp this
    exact ⟨d, hmf.1, by simpa using hmf.2⟩

/-- C2. For every ConsensusResult built by `_build_consensus` (hence by
`extract_total_amount`, `extract_date` and `extract_vendor`): the consensus
level is STRONG iff at least three detectors agree, MODERATE iff exactly two
agree, WEAK iff exactly one (that is, more than zero and fewer than two)
agrees, and NONE iff no detector returned a value; and `needs_confirmation`
holds iff the level is WEAK or NONE. -/
theorem claim_C2 (field_name : String) (rs : List DetectorResult) :
    ((buildConsensus field_name rs).consensus_level = .strong ↔
      3 ≤ (buildConsensus field_name rs).agreement_count) ∧
    ((buildConsensus field_name rs).consensus_level = .moderate ↔
      (buildConsensus field_name rs).agreement_count = 2) ∧
    ((buildConsensus field_name rs).consensus_level = .weak ↔
      (0 < (buildConsensus field_name rs).agreement_count ∧
        (buildConsensus field_name rs).agreement_count < 2)) ∧
    ((buildConsensus field_name rs).consensus_level = .none ↔ rs = []) ∧
    ((buildConsensus field_name rs).needs_confirmation = true ↔
      ((buildConsensus field_name rs).consensus_level = .weak ∨
        (buildConsensus field_name rs).consensus_level = .none)) := by
  cases rs with
  | nil => simp [buildConsensus]
  | cons d tl =>
    rcases hs : sortedCandidates (d :: tl) with _ | ⟨⟨bv, bc⟩, rest⟩
    · exact absurd hs (sortedCandidates_ne_nil _ (by simp))
    · obtain ⟨hbc, d₀, hd₀, hnorm⟩ := sortedCandidates_head_spec _ bv bc rest hs
      have h1le : 1 ≤ bc := by
        rw [hbc]
        have : d₀ ∈ (d :: tl).filter (fun r => normalizeForComparison r.value == bv) :=
          List.mem_filter.mpr ⟨hd₀, by simpa using hnorm⟩
        exact List.length_pos.mpr (List.ne_nil_of_mem this)
      simp only [buildConsensus, hs, levelTripleOf]
      by_cases h3 : 3 ≤ bc
      · simp [h3]
        omega
      · by_cases h2 : 2 ≤ bc
        · simp [h3, h2]
          omega
        · simp [h3, h2]
          omega

/-- The `final_value` of a nonempty consensus is one of the detector
values. -/
theorem buildConsensus_final_mem (field_name : String) (rs : List DetectorResult)
    (fv : Value) (h : (buildConsensus field_name rs).final_value = some fv) :
    ∃ d ∈ rs, d.value = fv := by
  cases rs with
  | nil => simp [buildConsensus] at h
  | cons d tl =>
    rcases hs : sortedCandidates (d :: tl) with _ | ⟨⟨bv, bc⟩, rest⟩
    · exact absurd hs (sortedCandidates_ne_nil _ (by simp))
    · simp only [buildConsensus, hs, Option.map_eq_some'] at h
      obtain ⟨d₀, hfind, hval⟩ := h
      exact ⟨d₀, List.mem_of_find?_eq_some hfind, hval⟩

/-- C8. For every ConsensusResult with at least one detector result:
`agreement_count` equals the number of detectors whose normalized value
equals the normalized `final_value` and never exceeds `total_detectors`;
`all_candidates` is sorted by vote count descending; and the head of
`all_candidates` is exactly the pair (normalized final value,
agreement_count). -/
theorem claim_C8 (field_name : String) (rs : List DetectorResult) (h : rs ≠ []) :
    ∃ fv, (buildConsensus field_name rs).final_value = some fv ∧
      (buildConsensus field_name rs).agreement_count =
        (rs.filter
          (fun d => normalizeForComparison d.value == normalizeForComparison fv)).length ∧
      (buildConsensus field_name rs).agreement_count ≤
        (buildConsensus field_name rs).total_detectors ∧
      List.Pairwise (fun (a b : Value × Nat) => b.2 ≤ a.2)
        (buildConsensus field_name rs).all_candidates ∧
      (buildConsensus field_name rs).all_candidates.head? =
        some (normalizeForComparison fv, (buildConsensus field_name rs).agreement_count) := by
  obtain ⟨d, tl, rfl⟩ := List.exists_cons_of_ne_nil h
  rcases hs : sortedCandidates (d :: tl) with _ | ⟨⟨bv, bc⟩, rest⟩
  · exact absurd hs (sortedCandidates_ne_nil _ (by simp))
  · obtain ⟨hbc, d₁, hd₁, hnorm₁⟩ := sortedCandidates_head_spec _ bv bc rest hs
    have hfindSome : ((d :: tl).find?
        (fun x => normalizeForComparison x.value = bv)).isSome := by
      rw [List.find?_isSome]
      exact ⟨d₁, hd₁, by simpa using hnorm₁⟩
    obtain ⟨d₀, hfind⟩ := Option.isSome_iff_exists.mp hfindSome
    have hnorm₀ : normalizeForComparison d₀.value = bv := by
      have := List.find?_some hfind
      simpa using this
    refine ⟨d₀.value, ?_, ?_, ?_, ?_, ?_⟩
    · simp [buildConsensus, hs, hfind]
    · simp only [buildConsensus, hs]
      rw [hbc, hnorm₀]
    · simp only [buildConsensus, hs]
      rw [hbc]
      exact List.length_filter_le _ _
    · simp only [buildConsensus, hs]
      have := sortedCandidates_sorted (d :: tl)
      rwa [hs] at this
    · simp only [buildConsensus, hs]
      rw [hnorm₀]
      rfl


/-- A concrete two-detector input for exercising `claim_C8`. -/
def witC8 : List DetectorResult :=
  [⟨"regex", Value.num 5, 17/20, "Found via pattern", Option.none⟩,
   ⟨"proximity", Value.num 5, 9/10, "Near keyword", Option.none⟩]

/-- Witness: `claim_C8` instantiated at a concrete two-detector list. -/
theorem claim_C8_witness :
    ∃ fv, (buildConsensus "total_amount" witC8).final_value = some fv ∧
      (buildConsensus "total_amount" witC8).agreement_count =
        (witC8.filter
          (fun d => normalizeForComparison d.value == normalizeForComparison fv)).length ∧
      (buildConsensus "total_amount" witC8).agreement_count ≤
        (buildConsensus "total_amount" witC8).total_detectors ∧
      List.Pairwise (fun (a b : Value × Nat) => b.2 ≤ a.2)
        (buildConsensus "total_amount" witC8).all_candidates ∧
      (buildConsensus "total_amount" witC8).all_candidates.head? =
        some (normalizeForComparison fv,
          (buildConsensus "total_amount" witC8).agreement_count) :=
  claim_C8 "total_amount" witC8 (by decide)

/-! ### C1: positivity and year exclusion of extracted amounts -/

/-- A fold whose step may only keep the accumulator or append elements
satisfying `P` yields only accumulator elements and `P`-elements. -/
theorem foldl_mem_invariant {α β : Type} {P : β → Prop}
    (f : List β → α → List β)
    (hf : ∀ acc a b, b ∈ f acc a → b ∈ acc ∨ P b) :
    ∀ (l : List α) (acc : List β) (b : β), b ∈ l.foldl f acc → b ∈ acc ∨ P b := by
  intro l
  induction l with
  | nil => intro acc b hb; exact Or.inl hb
  | cons x xs ih =>
    intro acc b hb
    rcases ih (f acc x) b hb with h | h
    · exact hf acc x b h
    · exact Or.inr h

/-- A fold whose step picks one of its two arguments (Python
`max(xs, key=...)`) returns the seed or a list element. -/
theorem foldl_pick_mem {α : Type} (f : α → α → α)
    (hf : ∀ b x, f b x = b ∨ f b x = x) :
    ∀ (l : List α) (b : α), l.foldl f b ∈ b :: l := by
  intro l
  induction l with
  | nil => intro b; simp [List.foldl]
  | cons x xs ih =>
    intro b
    rw [List.foldl_cons]
    rcases List.mem_cons.mp (ih (f b x)) with h | h
    · rcases hf b x with h2 | h2
      · rw [h, h2]; exact List.mem_cons_self _ _
      · rw [h, h2]
        exact List.mem_cons_of_mem _ (List.mem_cons_self _ _)
    · exact List.mem_cons_of_mem _ (List.mem_cons_of_mem _ h)

/-- Every amount collected into `footer_amounts` passed the `0.5 <` and
not-a-year filters of `_detect_amount_position`. -/
theorem mem_footerAmountsOf (text : String) (p : ℚ × Nat)
    (hp : p ∈ footerAmountsOf text) :
    1/2 < p.1 ∧ ¬ (1900 ≤ p.1 ∧ p.1 ≤ 2100) := by
  unfold footerAmountsOf at hp
  have key := foldl_mem_invariant (P := fun b : ℚ × Nat =>
      1/2 < b.1 ∧ ¬ (1900 ≤ b.1 ∧ b.1 ≤ 2100)) _ ?step _ _ _ hp
  · rcases key with h | h
    · simp at h
    · exact h
  case step =>
    intro acc a b hb
    split at hb
    · exact Or.inl hb
    · have inner := foldl_mem_invariant (P := fun b : ℚ × Nat =>
          1/2 < b.1 ∧ ¬ (1900 ≤ b.1 ∧ b.1 ≤ 2100)) _ ?istep _ _ _ hb
      · exact inner
      case istep =>
        intro a2 s b2 hb2
        split at hb2
        case _ v hv =>
          split at hb2
          case isTrue hc =>
            rcases List.mem_append.mp hb2 with h | h
            · exact Or.inl h
            · right
              simp only [List.mem_singleton] at h
              subst h
              refine ⟨hc.1, fun hy => hc.2 ?yr⟩
              case yr =>
                unfold looksLikeDate
                rw [hv]
                exact decide_eq_true hy
          case isFalse => exact Or.inl hb2
        case _ => exact Or.inl hb2

/-- Every amount collected into `all_amounts` passed the `0.5 <`, `< 10⁷`
and not-a-year filters of `_detect_amount_statistical`. -/
theorem mem_allAmountsOf (text : String) (q : ℚ)
    (hq : q ∈ allAmountsOf text) :
    1/2 < q ∧ q < 10000000 ∧ ¬ (1900 ≤ q ∧ q ≤ 2100) := by
  unfold allAmountsOf at hq
  have key := foldl_mem_invariant (P := fun q : ℚ =>
      1/2 < q ∧ q < 10000000 ∧ ¬ (1900 ≤ q ∧ q ≤ 2100)) _ ?step _ _ _ hq
  · rcases key with h | h
    · simp at h
    · exact h
  case step =>
    intro acc a b hb
    split at hb
    · exact Or.inl hb
    · have inner := foldl_mem_invariant (P := fun q : ℚ =>
          1/2 < q ∧ q < 10000000 ∧ ¬ (1900 ≤ q ∧ q ≤ 2100)) _ ?istep _ _ _ hb
      · exact inner
      case istep =>
        intro a2 s b2 hb2
        split at hb2
        case _ v hv =>
          split at hb2
          case isTrue hc =>
            rcases List.mem_append.mp hb2 with h | h
            · exact Or.inl h
            · right
              simp only [List.mem_singleton] at h
              subst h
              refine ⟨hc.1, hc.2.1, fun hy => hc.2.2 ?yr⟩
              case yr =>
                unfold looksLikeDate
                rw [hv]
                exact decide_eq_true hy
          case isFalse => exact Or.inl hb2
        case _ => exact Or.inl hb2

/-- Any value produced by `_detect_amount_regex` is a strictly positive
number (note: this detector applies no year exclusion). -/
theorem detectAmountRegex_pos (text currency : String) (d : DetectorResult)
    (h : detectAmountRegex text currency = some d) :
    ∃ q, d.value = .num q ∧ 0 < q := by
  simp only [detectAmountRegex] at h
  split at h
  case _ kw heq =>
    split at h
    case isTrue hpos =>
      simp only [Option.some.injEq] at h
      subst h
      exact ⟨_, rfl, hpos⟩
    case isFalse => exact absurd h (by simp)
  case _ => exact absurd h (by simp)

/-- Any value produced by `_detect_amount_proximity` is a number `> 0.5`
outside the year range. -/
theorem detectAmountProximity_spec (text : String) (d : DetectorResult)
    (h : detectAmountProximity text = some d) :
    ∃ q, d.value = .num q ∧ 1/2 < q ∧ ¬ (1900 ≤ q ∧ q ≤ 2100) := by
  unfold detectAmountProximity at h
  obtain ⟨p, hp, hf⟩ := List.exists_of_findSome?_eq_some h
  dsimp only at hf
  split at hf
  · exact absurd hf (by simp)
  · split at hf
    · obtain ⟨s, hs, hg⟩ := List.exists_of_findSome?_eq_some hf
      split at hg
      case _ v hv =>
        split at hg
        case isTrue hc =>
          simp only [Option.some.injEq] at hg
          subst hg
          refine ⟨v, rfl, hc.1, fun hy => hc.2 ?yr⟩
          case yr =>
            unfold looksLikeDate
            rw [hv]
            exact decide_eq_true hy
        case isFalse => exact absurd hg (by simp)
      case _ => exact absurd hg (by simp)
    · exact absurd hf (by simp)

/-- Any value produced by `_detect_amount_position` is a number `> 0.5`
outside the year range. -/
theorem detectAmountPosition_spec (text : String) (d : DetectorResult)
    (h : detectAmountPosition text = some d) :
    ∃ q, d.value = .num q ∧ 1/2 < q ∧ ¬ (1900 ≤ q ∧ q ≤ 2100) := by
  unfold detectAmountPosition at h
  split at h
  · exact absurd h (by simp)
  case _ hd tl heq =>
    simp only [Option.some.injEq] at h
    subst h
    have hmem := foldl_pick_mem (fun b x : ℚ × Nat => if b.1 < x.1 then x else b)
      (fun b x => by dsimp only; split <;> simp) (hd :: tl) hd
    have hmem2 : (hd :: tl).foldl (fun b x : ℚ × Nat => if b.1 < x.1 then x else b) hd
        ∈ footerAmountsOf text := by
      rw [heq]
      rcases List.mem_cons.mp hmem with h | h
      · rw [h]; exact List.mem_cons_self _ _
      · exact h
    obtain ⟨h1, h2⟩ := mem_footerAmountsOf text _ hmem2
    exact ⟨_, rfl, h1, h2⟩

/-- Any value produced by `_detect_amount_statistical` is a number `> 0.5`
outside the year range. -/
theorem detectAmountStatistical_spec (text : String) (d : DetectorResult)
    (h : detectAmountStatistical text = some d) :
    ∃ q, d.value = .num q ∧ 1/2 < q ∧ ¬ (1900 ≤ q ∧ q ≤ 2100) := by
  unfold detectAmountStatistical at h
  split at h
  · exact absurd h (by simp)
  case _ hd tl heq =>
    simp only [Option.some.injEq] at h
    subst h
    have hmem := foldl_pick_mem (fun b x : ℚ => if b < x then x else b)
      (fun b x => by dsimp only; split <;> simp) (hd :: tl) hd
    have hmem2 : (hd :: tl).foldl (fun b x : ℚ => if b < x then x else b) hd
        ∈ allAmountsOf text := by
      rw [heq]
      rcases List.mem_cons.mp hmem with h | h
      · rw [h]; exact List.mem_cons_self _ _
      · exact h
    obtain ⟨h1, h2, h3⟩ := mem_allAmountsOf text _ hmem2
    exact ⟨_, rfl, h1, h3⟩

/-- C1, amended. Every non-null `final_value` of `extract_total_amount` is a
strictly positive number, and each of the proximity, position and statistical
detectors only produces numbers `> 0.5` outside the year range 1900–2100.
(The original claim is refuted by `claim_C1_counterexample`: the regex
detector applies no year exclusion, so a year-valued total such as 2000 can
be accepted.) -/
theorem claim_C1_amended (text currency : String) :
    (∀ fv, (extractTotalAmount text currency).final_value = some fv →
       ∃ q, fv = .num q ∧ 0 < q) ∧
    (∀ d, detectAmountProximity text = some d →
       ∃ q, d.value = .num q ∧ 1/2 < q ∧ ¬ (1900 ≤ q ∧ q ≤ 2100)) ∧
    (∀ d, detectAmountPosition text = some d →
       ∃ q, d.value = .num q ∧ 1/2 < q ∧ ¬ (1900 ≤ q ∧ q ≤ 2100)) ∧
    (∀ d, detectAmountStatistical text = some d →
       ∃ q, d.value = .num q ∧ 1/2 < q ∧ ¬ (1900 ≤ q ∧ q ≤ 2100)) := by
  refine ⟨?fin, detectAmountProximity_spec text,
    detectAmountPosition_spec text, detectAmountStatistical_spec text⟩
  case fin =>
    intro fv hfv
    obtain ⟨d, hd, hval⟩ := buildConsensus_final_mem _ _ fv hfv
    simp only [List.mem_filterMap, id_eq, List.mem_cons, List.not_mem_nil,
      or_false] at hd
    obtain ⟨o, ho, hod⟩ := hd
    rcases ho with h | h | h | h
    · obtain ⟨q, hq, hqp⟩ := detectAmountRegex_pos text currency d (h ▸ hod)
      exact ⟨q, hval ▸ hq, hqp⟩
    · obtain ⟨q, hq, hqp, _⟩ := detectAmountProximity_spec text d (h ▸ hod)
      exact ⟨q, hval ▸ hq, by linarith⟩
    · obtain ⟨q, hq, hqp, _⟩ := detectAmountPosition_spec text d (h ▸ hod)
      exact ⟨q, hval ▸ hq, by linarith⟩
    · obtain ⟨q, hq, hqp, _⟩ := detectAmountStatistical_spec text d (h ▸ hod)
      exact ⟨q, hval ▸ hq, by linarith⟩

/-- C1, counterexample to the original claim: on the text `total 2000` the
pipeline accepts the integer-valued amount 2000, which lies in the year
range 1900–2100. -/
theorem claim_C1_counterexample :
    (extractTotalAmount "total 2000" "KES").final_value = some (.num 2000) ∧
    (0 : ℚ) < 2000 ∧ (1900 : ℚ) ≤ 2000 ∧ (2000 : ℚ) ≤ 2100 ∧ (2000 : ℚ).den = 1 := by
  refine ⟨by decide, by norm_num, by norm_num, by norm_num, by decide⟩

/-- Witness: the positivity part of `claim_C1_amended` at a concrete text
whose extracted total is 5. -/
theorem claim_C1_witness :
    (extractTotalAmount "total 5.00" "KES").final_value = some (.num 5) ∧
    ∃ q, (Value.num 5) = .num q ∧ 0 < q :=
  ⟨by decide, (claim_C1_amended "total 5.00" "KES").1 (.num 5) (by decide)⟩

/-! ### C4: `apply_user_corrections` confidence and level -/

/-- `ConfidenceLevel.from_score` returns VERIFIED exactly on scores
`≥ 0.95`. -/
theorem confLevelFromScore_verified_iff (s : ℚ) :
    confLevelFromScore s = .verified ↔ 19/20 ≤ s := by
  unfold confLevelFromScore
  by_cases h : (19 : ℚ)/20 ≤ s
  · simp [h]
  · rw [if_neg h]
    refine ⟨fun hv => ?_, fun hv => absurd hv h⟩
    exfalso
    split at hv
    · exact ConfLevel.noConfusion hv
    · split at hv
      · exact ConfLevel.noConfusion hv
      · split at hv
        · exact ConfLevel.noConfusion hv
        · split at hv
          · exact ConfLevel.noConfusion hv
          · exact ConfLevel.noConfusion hv

/-- C4, amended. `apply_user_corrections` always stamps the string
`confidence_level="verified"` on the result, but its numeric confidence is
`min(0.99, original + 0.15)`, which lies in the VERIFIED band (`≥ 0.95`) iff
the original confidence was at least `0.80`. (The original claim is refuted
by `claim_C4_counterexample`: an original confidence of 0 yields 0.15.) -/
theorem claim_C4_amended (learningEnabled : Bool) (mem : LearningMemory)
    (document_id : String) (corrections : List (String × Value))
    (original_result : EnterpriseExtractionResult) (now : String) :
    (applyUserCorrections learningEnabled mem document_id corrections
        original_result now).1.confidence_level = "verified" ∧
    (applyUserCorrections learningEnabled mem document_id corrections
        original_result now).1.confidence =
      min (99/100) (original_result.confidence + 3/20) ∧
    (confLevelFromScore
        (applyUserCorrections learningEnabled mem document_id corrections
          original_result now).1.confidence = .verified ↔
      4/5 ≤ original_result.confidence) := by
  refine ⟨rfl, rfl, ?_⟩
  have hc : (applyUserCorrections learningEnabled mem document_id corrections
      original_result now).1.confidence =
      min (99/100) (original_result.confidence + 3/20) := rfl
  rw [hc, confLevelFromScore_verified_iff, le_min_iff]
  constructor
  · intro h
    linarith [h.2]
  · intro h
    constructor
    · norm_num
    · linarith

/-- A concrete zero-confidence extraction result. -/
def c4Result : EnterpriseExtractionResult :=
  ⟨"doc-1", "receipt", "x", "x", [], [], 0, "unreliable", "", Json.null, true,
    Option.none, false, 0, "", Json.null, [], [], [], [], true, Option.none⟩

/-- C4, counterexample to the original claim: correcting a zero-confidence
result yields numeric confidence 0.15, below the VERIFIED band, though the
level string says `verified`. -/
theorem claim_C4_counterexample :
    (applyUserCorrections false ⟨"p", [], []⟩ "doc-1" [] c4Result "t").1.confidence = 3/20 ∧
    confLevelFromScore
        (applyUserCorrections false ⟨"p", [], []⟩ "doc-1" [] c4Result "t").1.confidence ≠
      .verified ∧
    (applyUserCorrections false ⟨"p", [], []⟩ "doc-1" [] c4Result "t").1.confidence_level =
      "verified" := by
  refine ⟨?_, ?_, rfl⟩
  · show min (99/100) ((0 : ℚ) + 3/20) = 3/20
    norm_num
  · show confLevelFromScore (min (99/100) ((0 : ℚ) + 3/20)) ≠ .verified
    intro hv
    rw [confLevelFromScore_verified_iff, le_min_iff] at hv
    linarith [hv.2]

/-! ### C5: `_save` persistence discipline -/

/-- C5, amended. `LearningMemory._save` serializes the entire state, but it
writes the serialized JSON **directly** to the configured storage path (after
ensuring the parent directory exists): there is no temporary file and no
rename step, so the write is not atomic. The second half of the claim holds:
whatever prefix of the file operations completes before an exception, the
in-memory state is returned unchanged. (The original claim's atomicity part
is refuted by `claim_C5_counterexample`.) -/
theorem claim_C5_amended (m : LearningMemory) (now : String) (performed : Nat) :
    (lmSave m now performed).1 = m ∧
    saveOps m now = [.mkdirParents (parentDir m.storage_path),
                     .writeFile m.storage_path (memoryToJson m now)] ∧
    (∀ op ∈ saveOps m now, op.isRename = false) ∧
    (∀ op ∈ (lmSave m now performed).2, op ∈ saveOps m now) := by
  refine ⟨rfl, rfl, ?_, ?_⟩
  · intro op hop
    simp only [saveOps, List.mem_cons, List.not_mem_nil, or_false] at hop
    rcases hop with rfl | rfl <;> rfl
  · intro op hop
    exact List.take_subset _ _ hop

/-- A concrete one-entry memory. -/
def c5Mem : LearningMemory :=
  ⟨"uploads/learning_memory.json",
   [("h1", ⟨⟨1, [], [], false, 1, "receipt", Option.none, "KES", "h1"⟩,
     [], [], [], 1, 0, "t0", "t0"⟩)],
   []⟩

/-- C5, counterexample to the original claim: the save of a concrete memory
performs exactly a mkdir and a direct write of the storage path — no
operation is a rename, so there is no write-temp-then-rename step. -/
theorem claim_C5_counterexample :
    saveOps c5Mem "t1" =
      [.mkdirParents "uploads",
       .writeFile "uploads/learning_memory.json" (memoryToJson c5Mem "t1")] ∧
    (saveOps c5Mem "t1").countP (fun op => op.isRename) = 0 ∧
    (lmSave c5Mem "t1" 1).1 = c5Mem := by
  refine ⟨?_, rfl, rfl⟩
  show [FileOp.mkdirParents (parentDir c5Mem.storage_path),
        FileOp.writeFile c5Mem.storage_path (memoryToJson c5Mem "t1")] = _
  have hp : parentDir c5Mem.storage_path = "uploads" := by
    show parentDir "uploads/learning_memory.json" = "uploads"
    decide
  rw [hp]
  rfl

/-! ### C6: silent confirmation of repeat sightings -/

/-- Updating the entry under an existing key changes exactly that entry:
looking the key up afterwards sees the updated entry. -/
theorem entriesLookup_entriesUpdate (l : List (String × LMEntry)) (k : String)
    (f : LMEntry → LMEntry) :
    entriesLookup (entriesUpdate l k f) k = (entriesLookup l k).map f := by
  induction l with
  | nil => rfl
  | cons p rest ih =>
    obtain ⟨k', e⟩ := p
    by_cases hk : k' = k
    · subst hk
      have h1 : entriesUpdate ((k', e) :: rest) k' f = (k', f e) :: entriesUpdate rest k' f := by
        simp [entriesUpdate]
      rw [h1]
      show (if k' = k' then some (f e) else entriesLookup (entriesUpdate rest k' f) k') = _
      rw [if_pos rfl]
      show _ = Option.map f (if k' = k' then some e else entriesLookup rest k')
      rw [if_pos rfl]
      rfl
    · have h1 : entriesUpdate ((k', e) :: rest) k f = (k', e) :: entriesUpdate rest k f := by
        simp [entriesUpdate, hk]
      rw [h1]
      show (if k' = k then some e else entriesLookup (entriesUpdate rest k f) k) = _
      rw [if_neg hk, ih]
      show _ = Option.map f (if k' = k then some e else entriesLookup rest k)
      rw [if_neg hk]

/-- A known fingerprint hash makes `learn_from_document` touch exactly the
matching entry. -/
theorem learnUpdatedEntries_found (m : LearningMemory) (fp : LMFingerprint)
    (fpos : Option (List (String × PosInfo))) (uc : Bool) (now : String) (e : LMEntry)
    (h : entriesLookup m.entries fp.fingerprint_hash = some e) :
    learnUpdatedEntries m fp fpos uc now =
      entriesUpdate m.entries fp.fingerprint_hash (learnTouch uc now) := by
  unfold learnUpdatedEntries
  rw [h]

/-- When the fingerprint is known and the memory is within the cap,
`learn_from_document` does not prune, and its entries are the in-place
update of the matching entry. -/
theorem learnFromDocument_entries_found (m : LearningMemory) (fp : LMFingerprint)
    (fields : List (String × Value)) (fpos : Option (List (String × PosInfo)))
    (uc : Bool) (now : String) (e : LMEntry)
    (h : entriesLookup m.entries fp.fingerprint_hash = some e)
    (hlen : m.entries.length ≤ MAX_ENTRIES) :
    (learnFromDocument m fp fields fpos uc now).entries =
      entriesUpdate m.entries fp.fingerprint_hash (learnTouch uc now) := by
  unfold learnFromDocument
  rw [learnUpdatedEntries_found m fp fpos uc now e h]
  have hlen2 : ¬ MAX_ENTRIES <
      (entriesUpdate m.entries fp.fingerprint_hash (learnTouch uc now)).length := by
    unfold entriesUpdate
    rw [List.length_map]
    omega
  rw [if_neg hlen2]

/-- C6. With learning enabled, the orchestrator's `_update_memory` calls
`learn_from_document` with `user_confirmed = not needs_confirmation`; hence a
repeat sighting of a known fingerprint whose extraction required no
confirmation increments the matching entry's `times_confirmed` (and
`times_seen`) by 1, with no user involved. -/
theorem claim_C6 (mem : LearningMemory) (text document_type : String)
    (extracted_fields : List (String × Value)) (now : String) (e : LMEntry)
    (h : entriesLookup mem.entries
        (createFingerprint text document_type (vendorNameOf extracted_fields)
          (currencyOf extracted_fields) false).fingerprint_hash = some e)
    (hlen : mem.entries.length ≤ MAX_ENTRIES) :
    updateMemory true mem text document_type extracted_fields false now =
      learnFromDocument mem
        (createFingerprint text document_type (vendorNameOf extracted_fields)
          (currencyOf extracted_fields) false)
        extracted_fields Option.none true now ∧
    ∃ e', entriesLookup
        (updateMemory true mem text document_type extracted_fields false now).entries
        (createFingerprint text document_type (vendorNameOf extracted_fields)
          (currencyOf extracted_fields) false).fingerprint_hash = some e' ∧
      e'.times_confirmed = e.times_confirmed + 1 ∧
      e'.times_seen = e.times_seen + 1 := by
  refine ⟨rfl, ?_⟩
  have hent : (updateMemory true mem text document_type extracted_fields false now).entries =
      entriesUpdate mem.entries
        (createFingerprint text document_type (vendorNameOf extracted_fields)
          (currencyOf extracted_fields) false).fingerprint_hash (learnTouch true now) := by
    show (learnFromDocument mem _ extracted_fields Option.none true now).entries = _
    exact learnFromDocument_entries_found mem _ extracted_fields Option.none true now e h hlen
  rw [hent, entriesLookup_entriesUpdate, h]
  refine ⟨learnTouch true now e, rfl, ?_, rfl⟩
  show (if true then e.times_confirmed + 1 else e.times_confirmed) = e.times_confirmed + 1
  rfl

/-- A concrete fingerprint, entry and memory for the C6 witness. -/
def c6Fp : LMFingerprint := createFingerprint "x" "t" Option.none "KES" false

def c6Entry : LMEntry := ⟨c6Fp, [], [], [], 3, 1, "t0", "t0"⟩

def c6Mem : LearningMemory := ⟨"p", [(c6Fp.fingerprint_hash, c6Entry)], []⟩

/-- Witness: `claim_C6` at a concrete one-entry memory whose sole entry is
sighted again without needing confirmation. -/
theorem claim_C6_witness :
    updateMemory true c6Mem "x" "t" [] false "t1" =
      learnFromDocument c6Mem
        (createFingerprint "x" "t" (vendorNameOf []) (currencyOf []) false)
        [] Option.none true "t1" ∧
    ∃ e', entriesLookup (updateMemory true c6Mem "x" "t" [] false "t1").entries
        (createFingerprint "x" "t" (vendorNameOf []) (currencyOf []) false).fingerprint_hash =
        some e' ∧
      e'.times_confirmed = c6Entry.times_confirmed + 1 ∧
      e'.times_seen = c6Entry.times_seen + 1 :=
  claim_C6 c6Mem "x" "t" [] "t1" c6Entry (by decide) (by decide)

/-! ### C9: the memory cap and the fairness of pruning -/

/-- An unknown fingerprint hash makes `learn_from_document` append one new
entry. -/
theorem learnUpdatedEntries_new (m : LearningMemory) (fp : LMFingerprint)
    (fpos : Option (List (String × PosInfo))) (uc : Bool) (now : String)
    (h : entriesLookup m.entries fp.fingerprint_hash = Option.none) :
    learnUpdatedEntries m fp fpos uc now =
      m.entries ++ [(fp.fingerprint_hash, learnNewEntry fp fpos uc now)] := by
  unfold learnUpdatedEntries
  rw [h]

/-- The pruned entry list of an over-full memory is sorted by utility
descending. -/
theorem prunedKeep_sorted (entries : List (String × LMEntry)) :
    List.Pairwise (fun (a b : String × LMEntry) => entryUtility b.2 ≤ entryUtility a.2)
      (entries.insertionSort (fun a b => entryUtility b.2 ≤ entryUtility a.2)) := by
  haveI : IsTotal (String × LMEntry) (fun a b => entryUtility b.2 ≤ entryUtility a.2) :=
    ⟨fun a b => Nat.le_total (entryUtility b.2) (entryUtility a.2)⟩
  haveI : IsTrans (String × LMEntry) (fun a b => entryUtility b.2 ≤ entryUtility a.2) :=
    ⟨fun _ _ _ h1 h2 => Nat.le_trans h2 h1⟩
  exact List.sorted_insertionSort _ _

/-- C9. A `learn_from_document` call on a full memory (at the cap) with an
unseen fingerprint prunes back to exactly `MAX_ENTRIES` entries, and the
pruning is fair: an entry of the pre-cap dict that was removed has utility
`times_seen + 2·times_confirmed` at most that of every retained entry. -/
theorem claim_C9 (m : LearningMemory) (fp : LMFingerprint)
    (fields : List (String × Value)) (fpos : Option (List (String × PosInfo)))
    (uc : Bool) (now : String)
    (h1 : entriesLookup m.entries fp.fingerprint_hash = Option.none)
    (h2 : m.entries.length = MAX_ENTRIES) :
    (learnFromDocument m fp fields fpos uc now).entries.length = MAX_ENTRIES ∧
    (∀ p ∈ learnUpdatedEntries m fp fpos uc now,
       p ∉ (learnFromDocument m fp fields fpos uc now).entries →
       ∀ q ∈ (learnFromDocument m fp fields fpos uc now).entries,
         entryUtility p.2 ≤ entryUtility q.2) := by
  have hupd := learnUpdatedEntries_new m fp fpos uc now h1
  have hlen : (learnUpdatedEntries m fp fpos uc now).length = MAX_ENTRIES + 1 := by
    rw [hupd, List.length_append, h2]
    rfl
  have hgt : MAX_ENTRIES < (learnUpdatedEntries m fp fpos uc now).length := by
    rw [hlen]
    exact Nat.lt_succ_self _
  have hres : learnFromDocument m fp fields fpos uc now =
      pruneOldEntries ⟨m.storage_path, learnUpdatedEntries m fp fpos uc now,
        learnVendorIndex m fp⟩ := by
    unfold learnFromDocument
    rw [if_pos hgt]
  have hple : ¬ (learnUpdatedEntries m fp fpos uc now).length ≤ MAX_ENTRIES := by
    omega
  have hpr : (learnFromDocument m fp fields fpos uc now).entries =
      prunedKeep (learnUpdatedEntries m fp fpos uc now) := by
    rw [hres]
    unfold pruneOldEntries
    rw [if_neg hple]
  have hsortlen :
      ((learnUpdatedEntries m fp fpos uc now).insertionSort
        (fun a b => entryUtility b.2 ≤ entryUtility a.2)).length = MAX_ENTRIES + 1 := by
    rw [(List.perm_insertionSort _ _).length_eq, hlen]
  constructor
  · rw [hpr]
    unfold prunedKeep
    rw [List.length_take, hsortlen]
    omega
  · intro p hp hnp q hq
    rw [hpr] at hnp hq
    unfold prunedKeep at hnp hq
    have hmem : p ∈ (learnUpdatedEntries m fp fpos uc now).insertionSort
        (fun a b => entryUtility b.2 ≤ entryUtility a.2) := by
      rw [List.mem_insertionSort]
      exact hp
    have hsplit := List.take_append_drop MAX_ENTRIES
      ((learnUpdatedEntries m fp fpos uc now).insertionSort
        (fun a b => entryUtility b.2 ≤ entryUtility a.2))
    have hpd : p ∈ ((learnUpdatedEntries m fp fpos uc now).insertionSort
        (fun a b => entryUtility b.2 ≤ entryUtility a.2)).drop MAX_ENTRIES := by
      rcases List.mem_append.mp (by rw [hsplit]; exact hmem) with h | h
      · exact absurd h hnp
      · exact h
    have hpw := prunedKeep_sorted (learnUpdatedEntries m fp fpos uc now)
    rw [← hsplit] at hpw
    have hrel := (List.pairwise_append.mp hpw).2.2
    exact hrel q hq p hpd

/-- A concrete full memory (exactly `MAX_ENTRIES` entries, keyed by strings
of repeated letters so no key collides with a fingerprint hash). -/
def c9Mem : LearningMemory :=
  ⟨"p",
   (List.range MAX_ENTRIES).map (fun i =>
     (String.mk (List.replicate i 'a'),
      (⟨⟨1, [], [], false, 1, "t", Option.none, "KES", String.mk (List.replicate i 'a')⟩,
        [], [], [], 1, 0, "t0", "t0"⟩ : LMEntry))),
   []⟩

def c9Fp : LMFingerprint := createFingerprint "x" "t" Option.none "KES" false

set_option maxRecDepth 40000 in
/-- Witness: `claim_C9` at a concrete memory holding exactly 1000 entries
when an unseen fingerprint arrives. -/
theorem claim_C9_witness :
    (learnFromDocument c9Mem c9Fp [] Option.none false "t1").entries.length = MAX_ENTRIES ∧
    (∀ p ∈ learnUpdatedEntries c9Mem c9Fp Option.none false "t1",
       p ∉ (learnFromDocument c9Mem c9Fp [] Option.none false "t1").entries →
       ∀ q ∈ (learnFromDocument c9Mem c9Fp [] Option.none false "t1").entries,
         entryUtility p.2 ≤ entryUtility q.2) :=
  claim_C9 c9Mem c9Fp [] Option.none false "t1" (by decide)
    (by show ((List.range MAX_ENTRIES).map _).length = MAX_ENTRIES
        rw [List.length_map, List.length_range])

/-! ### C7: every detected date is a valid ISO date -/

/-- Case analysis for `Option.orElse` (`<|>`). -/
theorem orElse_cases {α : Type} (a b : Option α) (x : α) (h : (a <|> b) = some x) :
    a = some x ∨ b = some x := by
  cases a with
  | none => right; exact h
  | some y => left; simpa using h

theorem digitChar_isDigit (n : Nat) (h : n < 10) : (digitChar n).isDigit = true := by
  interval_cases n <;> decide

theorem digitVal_digitChar (n : Nat) (h : n < 10) : digitVal (digitChar n) = n := by
  interval_cases n <;> decide

/-- The validation-and-format step produces exactly the `YYYY-MM-DD` shape,
and reparsing recovers the validated components, which satisfy the
calendar-validity bounds. -/
theorem validFormatDate_spec (y mo dy : Nat) (s : String)
    (h : validFormatDate y mo dy = some s) :
    isoShape s = true ∧ reparseIso s = some (y, mo, dy) ∧
    1 ≤ mo ∧ mo ≤ 12 ∧ 1 ≤ dy ∧ dy ≤ 31 ∧ 1900 ≤ y ∧ y ≤ 2100 := by
  unfold validFormatDate at h
  split at h
  case isTrue hc =>
    simp only [Option.some.injEq] at h
    subst h
    obtain ⟨h1, h2, h3, h4, h5, h6⟩ := hc
    have hy4 : y < 10000 := by omega
    have hm2 : mo < 100 := by omega
    have hd2 : dy < 100 := by omega
    have hdata : (formatIsoDate y mo dy).data =
        [digitChar (y / 1000), digitChar (y / 100 % 10), digitChar (y / 10 % 10),
         digitChar (y % 10), '-', digitChar (mo / 10), digitChar (mo % 10), '-',
         digitChar (dy / 10), digitChar (dy % 10)] := by
      unfold formatIsoDate pad4 pad2
      rw [if_pos hy4, if_pos hm2, if_pos hd2]
      rfl
    have hs : formatIsoDate y mo dy = String.mk
        [digitChar (y / 1000), digitChar (y / 100 % 10), digitChar (y / 10 % 10),
         digitChar (y % 10), '-', digitChar (mo / 10), digitChar (mo % 10), '-',
         digitChar (dy / 10), digitChar (dy % 10)] := congrArg String.mk hdata
    have g1 := digitChar_isDigit (y / 1000) (by omega)
    have g2 := digitChar_isDigit (y / 100 % 10) (by omega)
    have g3 := digitChar_isDigit (y / 10 % 10) (by omega)
    have g4 := digitChar_isDigit (y % 10) (by omega)
    have g5 := digitChar_isDigit (mo / 10) (by omega)
    have g6 := digitChar_isDigit (mo % 10) (by omega)
    have g7 := digitChar_isDigit (dy / 10) (by omega)
    have g8 := digitChar_isDigit (dy % 10) (by omega)
    have v1 := digitVal_digitChar (y / 1000) (by omega)
    have v2 := digitVal_digitChar (y / 100 % 10) (by omega)
    have v3 := digitVal_digitChar (y / 10 % 10) (by omega)
    have v4 := digitVal_digitChar (y % 10) (by omega)
    have v5 := digitVal_digitChar (mo / 10) (by omega)
    have v6 := digitVal_digitChar (mo % 10) (by omega)
    have v7 := digitVal_digitChar (dy / 10) (by omega)
    have v8 := digitVal_digitChar (dy % 10) (by omega)
    refine ⟨?_, ?_, h1, h2, h3, h4, h5, h6⟩
    · rw [hs]
      simp [isoShape, g1, g2, g3, g4, g5, g6, g7, g8]
    · rw [hs]
      simp only [reparseIso, g1, g2, g3, g4, g5, g6, g7, g8, Bool.and_self, if_pos,
        Option.some.injEq, Prod.mk.injEq, v1, v2, v3, v4, v5, v6, v7, v8]
      omega
  case isFalse => exact absurd h (by simp)

/-- Any date value produced by `_detect_date_regex` came out of
`_normalize_date`. -/
theorem detectDateRegex_spec (text : String) (d : DetectorResult)
    (h : detectDateRegex text = some d) :
    ∃ nd, d.value = .str nd ∧ ∃ y mo dy, validFormatDate y mo dy = some nd := by
  have h' : ((searchDatePat (withMatched matchYMD) text.data).bind (fun gm =>
        (normalizeDateYMD gm.1.1 gm.1.2.1 gm.1.2.2).bind (fun nd =>
          some ⟨"regex", .str nd, 17/20, "Matched YMD pattern: " ++ gm.2, Option.none⟩)) <|>
      ((searchDatePat (withMatched matchDMY) text.data).bind (fun gm =>
        (normalizeDateDMY gm.1.1 gm.1.2.1 gm.1.2.2).bind (fun nd =>
          some ⟨"regex", .str nd, 17/20, "Matched DMY pattern: " ++ gm.2, Option.none⟩)) <|>
       (searchDatePat (withMatched matchDMonY) text.data).bind (fun gm =>
        (normalizeDateDMonY gm.1.1 gm.1.2.1 gm.1.2.2).bind (fun nd =>
          some ⟨"regex", .str nd, 17/20,
            "Matched D_Mon_Y pattern: " ++ gm.2, Option.none⟩)))) = some d := h
  rcases orElse_cases _ _ _ h' with h1 | h23
  · obtain ⟨gm, _, h2⟩ := Option.bind_eq_some.mp h1
    obtain ⟨nd, hnd, h3⟩ := Option.bind_eq_some.mp h2
    simp only [Option.some.injEq] at h3
    subst h3
    exact ⟨nd, rfl, gm.1.1, gm.1.2.1, gm.1.2.2, hnd⟩
  rcases orElse_cases _ _ _ h23 with h1 | h1
  · obtain ⟨gm, _, h2⟩ := Option.bind_eq_some.mp h1
    obtain ⟨nd, hnd, h3⟩ := Option.bind_eq_some.mp h2
    simp only [Option.some.injEq] at h3
    subst h3
    exact ⟨nd, rfl, gm.1.2.2, gm.1.2.1, gm.1.1, hnd⟩
  · obtain ⟨gm, _, h2⟩ := Option.bind_eq_some.mp h1
    obtain ⟨nd, hnd, h3⟩ := Option.bind_eq_some.mp h2
    simp only [Option.some.injEq] at h3
    subst h3
    exact ⟨nd, rfl, gm.1.2.2, monthToNum gm.1.2.1, gm.1.1, hnd⟩

/-- Any date value produced by `_detect_date_proximity` came out of
`_normalize_date`. -/
theorem detectDateProximity_spec (text : String) (d : DetectorResult)
    (h : detectDateProximity text = some d) :
    ∃ nd, d.value = .str nd ∧ ∃ y mo dy, validFormatDate y mo dy = some nd := by
  obtain ⟨p, hp, hf⟩ := List.exists_of_findSome?_eq_some
    (show (pySplitLines text).enum.findSome? _ = some d from h)
  dsimp only at hf
  split at hf
  · rcases orElse_cases _ _ _ hf with h1 | h23
    · obtain ⟨g, _, h2⟩ := Option.bind_eq_some.mp h1
      obtain ⟨nd, hnd, h3⟩ := Option.bind_eq_some.mp h2
      simp only [Option.some.injEq] at h3
      subst h3
      exact ⟨nd, rfl, g.1, g.2.1, g.2.2, hnd⟩
    rcases orElse_cases _ _ _ h23 with h1 | h1
    · obtain ⟨g, _, h2⟩ := Option.bind_eq_some.mp h1
      obtain ⟨nd, hnd, h3⟩ := Option.bind_eq_some.mp h2
      simp only [Option.some.injEq] at h3
      subst h3
      exact ⟨nd, rfl, g.2.2, g.2.1, g.1, hnd⟩
    · obtain ⟨g, _, h2⟩ := Option.bind_eq_some.mp h1
      obtain ⟨nd, hnd, h3⟩ := Option.bind_eq_some.mp h2
      simp only [Option.some.injEq] at h3
      subst h3
      exact ⟨nd, rfl, (if g.2.2 < 50 then 2000 + g.2.2 else 1900 + g.2.2), g.2.1, g.1, hnd⟩
  · exact absurd hf (by simp)

/-- Any date value produced by `_detect_date_position` came out of
`_normalize_date`. -/
theorem detectDatePosition_spec (text : String) (d : DetectorResult)
    (h : detectDatePosition text = some d) :
    ∃ nd, d.value = .str nd ∧ ∃ y mo dy, validFormatDate y mo dy = some nd := by
  obtain ⟨p, hp, hf⟩ := List.exists_of_findSome?_eq_some
    (show (((pySplitLines text).enum.take _).findSome? _ : Option DetectorResult) =
      some d from h)
  dsimp only at hf
  rcases orElse_cases _ _ _ hf with h1 | h1
  · obtain ⟨g, _, h2⟩ := Option.bind_eq_some.mp h1
    obtain ⟨nd, hnd, h3⟩ := Option.bind_eq_some.mp h2
    simp only [Option.some.injEq] at h3
    subst h3
    exact ⟨nd, rfl, g.1, g.2.1, g.2.2, hnd⟩
  · obtain ⟨g, _, h2⟩ := Option.bind_eq_some.mp h1
    obtain ⟨nd, hnd, h3⟩ := Option.bind_eq_some.mp h2
    simp only [Option.some.injEq] at h3
    subst h3
    exact ⟨nd, rfl, g.2.2, g.2.1, g.1, hnd⟩

/-- Every pair collected into `all_dates` has a normalized first
component. -/
theorem mem_allDatesOf (text : String) (p : String × String)
    (hp : p ∈ allDatesOf text) :
    ∃ y mo dy, validFormatDate y mo dy = some p.1 := by
  unfold allDatesOf at hp
  have key := foldl_mem_invariant (P := fun p : String × String =>
      ∃ y mo dy, validFormatDate y mo dy = some p.1) _ ?dmy _ _ _ hp
  · rcases key with h | h
    · have key2 := foldl_mem_invariant (P := fun p : String × String =>
          ∃ y mo dy, validFormatDate y mo dy = some p.1) _ ?ymd _ _ _ h
      · rcases key2 with h2 | h2
        · simp at h2
        · exact h2
      case ymd =>
        intro acc gm b hb
        split at hb
        case _ nd hnd =>
          rcases List.mem_append.mp hb with hb1 | hb1
          · exact Or.inl hb1
          · simp only [List.mem_singleton] at hb1
            subst hb1
            exact Or.inr ⟨gm.1.1, gm.1.2.1, gm.1.2.2, hnd⟩
        case _ => exact Or.inl hb
    · exact h
  case dmy =>
    intro acc gm b hb
    split at hb
    case _ nd hnd =>
      rcases List.mem_append.mp hb with hb1 | hb1
      · exact Or.inl hb1
      · simp only [List.mem_singleton] at hb1
        subst hb1
        exact Or.inr ⟨gm.1.2.2, gm.1.2.1, gm.1.1, hnd⟩
    case _ => exact Or.inl hb

/-- Any date value produced by `_detect_date_statistical` came out of
`_normalize_date`. -/
theorem detectDateStatistical_spec (text : String) (d : DetectorResult)
    (h : detectDateStatistical text = some d) :
    ∃ nd, d.value = .str nd ∧ ∃ y mo dy, validFormatDate y mo dy = some nd := by
  unfold detectDateStatistical at h
  split at h
  · exact absurd h (by simp)
  case _ best rest heq =>
    simp only [Option.some.injEq] at h
    subst h
    have hmem : best ∈ (allDatesOf text).insertionSort (fun a b => pairLeStr b a = true) := by
      rw [heq]
      exact List.mem_cons_self _ _
    rw [List.mem_insertionSort] at hmem
    obtain ⟨y, mo, dy, hval⟩ := mem_allDatesOf text best hmem
    exact ⟨best.1, rfl, y, mo, dy, hval⟩

/-- C7. Every date value placed in a `DetectorResult` by any of the four
date detectors is a string of shape `YYYY-MM-DD` that reparses to components
with `1 ≤ month ≤ 12`, `1 ≤ day ≤ 31` and `1900 ≤ year ≤ 2100`. -/
theorem claim_C7 (text : String) (d : DetectorResult)
    (h : detectDateRegex text = some d ∨ detectDateProximity text = some d ∨
         detectDatePosition text = some d ∨ detectDateStatistical text = some d) :
    ∃ s, d.value = .str s ∧ isoShape s = true ∧
      ∃ y mo dy, reparseIso s = some (y, mo, dy) ∧
        1 ≤ mo ∧ mo ≤ 12 ∧ 1 ≤ dy ∧ dy ≤ 31 ∧ 1900 ≤ y ∧ y ≤ 2100 := by
  have main : ∃ nd, d.value = .str nd ∧ ∃ y mo dy, validFormatDate y mo dy = some nd := by
    rcases h with h | h | h | h
    · exact detectDateRegex_spec text d h
    · exact detectDateProximity_spec text d h
    · exact detectDatePosition_spec text d h
    · exact detectDateStatistical_spec text d h
  obtain ⟨nd, hv, y, mo, dy, hval⟩ := main
  obtain ⟨hshape, hrep, hb⟩ := validFormatDate_spec y mo dy nd hval
  exact ⟨nd, hv, hshape, y, mo, dy, hrep, hb⟩

/-- Witness: `claim_C7` on the regex detector's result for `2025-02-03`. -/
theorem claim_C7_witness :
    ∃ s, (⟨"regex", .str "2025-02-03", 17/20, "Matched YMD pattern: 2025-02-03",
        Option.none⟩ : DetectorResult).value = .str s ∧ isoShape s = true ∧
      ∃ y mo dy, reparseIso s = some (y, mo, dy) ∧
        1 ≤ mo ∧ mo ≤ 12 ∧ 1 ≤ dy ∧ dy ≤ 31 ∧ 1900 ≤ y ∧ y ≤ 2100 :=
  claim_C7 "2025-02-03" _ (Or.inl (by decide))

/-! ### C3: when the planner emits LOW_CONFIDENCE requests -/

/-- A fold whose step only keeps or extends the accumulator preserves
membership. -/
theorem foldl_grow_mem {α β : Type} (f : List β → α → List β)
    (hgrow : ∀ acc a b, b ∈ acc → b ∈ f acc a) :
    ∀ (l : List α) (acc : List β) (b : β), b ∈ acc → b ∈ l.foldl f acc := by
  intro l
  induction l with
  | nil => intro acc b hb; exact hb
  | cons x xs ih =>
    intro acc b hb
    rw [List.foldl_cons]
    exact ih _ _ (hgrow acc x b hb)

/-- Candidate sources of the field-level branch (`"<n> detectors"`) are
never the low-confidence block's source `"extraction"`. -/
theorem detectors_src_ne (s : String) : s ++ " detectors" ≠ "extraction" := by
  intro h
  have hd : (s ++ " detectors").data = ("extraction" : String).data := congrArg String.data h
  rw [String.data_append] at hd
  have hlen : s.data.length + (" detectors" : String).data.length =
      ("extraction" : String).data.length := by
    rw [← List.length_append, hd]
  have h10 : (" detectors" : String).data.length = 10 := by decide
  have h10b : ("extraction" : String).data.length = 10 := by decide
  have hz : s.data.length = 0 := by omega
  have hnil : s.data = [] := List.length_eq_zero.mp hz
  rw [hnil, List.nil_append] at hd
  have hne : (" detectors" : String).data ≠ ("extraction" : String).data := by decide
  exact hne hd

/-- Requests emitted by `_evaluate_field` only carry `"<n> detectors"`
candidate sources. -/
theorem evaluateField_src (fn : String) (cd : ConsensusDict) (cv : Option Value)
    (raw : String) (req : FieldConfirmationRequest)
    (h : evaluateField fn cd cv raw = some req) :
    ∀ c ∈ req.candidates, c.source ≠ "extraction" := by
  unfold evaluateField at h
  split at h
  · simp only [Option.some.injEq] at h
    subst h
    intro c hc
    have hc' : c ∈ (cd.all_candidates.take 5).map (fun p =>
        (⟨p.1, toString p.2 ++ " detectors", 1/2, "Detected value"⟩ :
          ConfirmationCandidate)) := hc
    obtain ⟨p, _, hp⟩ := List.mem_map.mp hc'
    rw [← hp]
    exact detectors_src_ne _
  · exact absurd h (by simp)

/-- No field-level request carries an `"extraction"`-sourced candidate. -/
theorem fieldLevelRequests_src (cs : List (String × ConsensusDict))
    (fields : List (String × Option Value)) (raw : String)
    (r : FieldConfirmationRequest) (hr : r ∈ fieldLevelRequests cs fields raw) :
    ∀ c ∈ r.candidates, c.source ≠ "extraction" := by
  unfold fieldLevelRequests at hr
  have key := foldl_mem_invariant
      (P := fun r : FieldConfirmationRequest => ∀ c ∈ r.candidates, c.source ≠ "extraction")
      _ ?step _ _ _ hr
  · rcases key with h | h
    · exact absurd h (List.not_mem_nil r)
    · exact h
  case step =>
    intro acc a b hb
    split at hb
    case _ req hreq =>
      rcases List.mem_append.mp hb with h | h
      · exact Or.inl h
      · simp only [List.mem_singleton] at h
        subst h
        exact Or.inr (evaluateField_src _ _ _ _ _ hreq)
    case _ => exact Or.inl hb

/-- The missing-critical loop adds only candidate-free requests. -/
theorem addMissingCritical_src (raw : String) (fields : List (String × Option Value))
    (acc : List FieldConfirmationRequest)
    (hacc : ∀ r ∈ acc, ∀ c ∈ r.candidates, c.source ≠ "extraction")
    (r : FieldConfirmationRequest) (hr : r ∈ addMissingCritical raw fields acc) :
    ∀ c ∈ r.candidates, c.source ≠ "extraction" := by
  unfold addMissingCritical at hr
  have key := foldl_mem_invariant
      (P := fun r : FieldConfirmationRequest => ∀ c ∈ r.candidates, c.source ≠ "extraction")
      _ ?step _ _ _ hr
  · rcases key with h | h
    · exact hacc r h
    · exact h
  case step =>
    intro acc' a b hb
    split at hb
    · split at hb
      · exact Or.inl hb
      · rcases List.mem_append.mp hb with h | h
        · exact Or.inl h
        · simp only [List.mem_singleton] at h
          subst h
          right
          intro c hc
          exact absurd hc (List.not_mem_nil c)
    · exact Or.inl hb

/-- In the low-confidence loop, every critical field with a non-null
current value contributes its request. -/
theorem lc_fold_mem (oc : ℚ) (raw : String) (fields : List (String × Option Value)) :
    ∀ (l : List String) (acc : List FieldConfirmationRequest) (f : String),
      f ∈ l → ∀ v, fieldsGet fields f = some v →
      lcRequest oc raw f v ∈ l.foldl (lcStep oc raw fields) acc := by
  have hgrow : ∀ (acc : List FieldConfirmationRequest) (a : String)
      (b : FieldConfirmationRequest), b ∈ acc → b ∈ lcStep oc raw fields acc a := by
    intro acc a b hb
    unfold lcStep
    split
    · exact List.mem_append_left _ hb
    · exact hb
  intro l
  induction l with
  | nil => intro acc f hf; exact absurd hf (List.not_mem_nil f)
  | cons x xs ih =>
    intro acc f hf v hv
    rw [List.foldl_cons]
    rcases List.mem_cons.mp hf with rfl | hf'
    · apply foldl_grow_mem _ hgrow xs _ _
      unfold lcStep
      rw [hv]
      exact List.mem_append_right _ (List.mem_singleton.mpr rfl)
    · exact ih _ f hf' v hv

/-- C3, amended. The planner's low-confidence block compares the overall
confidence with the module constant `CONFIDENCE_THRESHOLD_LOW = 0.50` — not
with the configured `confidence_threshold` (default 0.60) — and fires only
when the field-level and missing-critical loops produced no request at all.
When it fires it emits one LOW_CONFIDENCE request (candidate source
`extraction`) per critical field with a non-null current value, and such
requests appear in no other circumstance. (The original claim is refuted by
`claim_C3_counterexample` at overall confidence 0.55.) -/
theorem claim_C3_amended (document_id document_type : String)
    (extracted_fields : List (String × Option Value))
    (consensus_results : List (String × ConsensusDict))
    (overall_confidence : ℚ) (raw_text : String) (now : String) :
    CONFIDENCE_THRESHOLD_LOW = 1/2 ∧
    (¬ (overall_confidence < CONFIDENCE_THRESHOLD_LOW ∧
        addMissingCritical raw_text extracted_fields
          (fieldLevelRequests consensus_results extracted_fields raw_text) = []) →
      ∀ r ∈ (evaluateExtraction document_id document_type extracted_fields
          consensus_results overall_confidence raw_text now).fields,
        r ∈ addMissingCritical raw_text extracted_fields
          (fieldLevelRequests consensus_results extracted_fields raw_text)) ∧
    (overall_confidence < CONFIDENCE_THRESHOLD_LOW →
      addMissingCritical raw_text extracted_fields
        (fieldLevelRequests consensus_results extracted_fields raw_text) = [] →
      ∀ f ∈ criticalFields, ∀ v, fieldsGet extracted_fields f = some v →
        lcRequest overall_confidence raw_text f v ∈
          (evaluateExtraction document_id document_type extracted_fields
            consensus_results overall_confidence raw_text now).fields) ∧
    (∀ r ∈ (evaluateExtraction document_id document_type extracted_fields
        consensus_results overall_confidence raw_text now).fields,
      (∃ c ∈ r.candidates, c.source = "extraction") →
        overall_confidence < CONFIDENCE_THRESHOLD_LOW ∧
        addMissingCritical raw_text extracted_fields
          (fieldLevelRequests consensus_results extracted_fields raw_text) = []) := by
  have hfields : (evaluateExtraction document_id document_type extracted_fields
      consensus_results overall_confidence raw_text now).fields =
      (addLowConfidence overall_confidence raw_text extracted_fields
        (addMissingCritical raw_text extracted_fields
          (fieldLevelRequests consensus_results extracted_fields raw_text))).insertionSort
        (fun a b => priorityRank a.priority ≤ priorityRank b.priority) := rfl
  refine ⟨rfl, ?nofire, ?fire, ?src⟩
  case nofire =>
    intro hcond r hr
    rw [hfields, List.mem_insertionSort] at hr
    unfold addLowConfidence at hr
    rw [if_neg hcond] at hr
    exact hr
  case fire =>
    intro hoc hpre f hf v hv
    rw [hfields, List.mem_insertionSort]
    unfold addLowConfidence
    rw [if_pos ⟨hoc, hpre⟩, hpre]
    exact lc_fold_mem overall_confidence raw_text extracted_fields criticalFields [] f hf v hv
  case src =>
    intro r hr hex
    obtain ⟨c, hc, hsrc⟩ := hex
    by_cases hcond : overall_confidence < CONFIDENCE_THRESHOLD_LOW ∧
        addMissingCritical raw_text extracted_fields
          (fieldLevelRequests consensus_results extracted_fields raw_text) = []
    · exact hcond
    · exfalso
      rw [hfields, List.mem_insertionSort] at hr
      unfold addLowConfidence at hr
      rw [if_neg hcond] at hr
      exact addMissingCritical_src raw_text extracted_fields _
        (fieldLevelRequests_src consensus_results extracted_fields raw_text) r hr c hc hsrc

/-- Concrete inputs for the C3 counterexample: all three critical fields
extracted with clean (no-confirmation) consensus. -/
def c3Fields : List (String × Option Value) :=
  [("total_amount", some (.num 100)), ("date", some (.str "2025-01-01")),
   ("vendor", some (.str "acme"))]

def c3Dict (fn : String) (v : Value) : ConsensusDict :=
  ⟨fn, some v, "strong", "3/4", ["regex", "proximity", "position"], [], false,
   Option.none, [(v, 3)]⟩

def c3Consensus : List (String × ConsensusDict) :=
  [("total_amount", c3Dict "total_amount" (.num 100)),
   ("date", c3Dict "date" (.str "2025-01-01")),
   ("vendor", c3Dict "vendor" (.str "acme"))]

/-- C3, counterexample to the original claim: at overall confidence 0.55 —
below the configured threshold default 0.60 — with every critical field
present and no field-level issue, the planner emits no request at all. -/
theorem claim_C3_counterexample :
    (11/20 : ℚ) < 3/5 ∧
    fieldsGet c3Fields "total_amount" = some (.num 100) ∧
    fieldsGet c3Fields "date" = some (.str "2025-01-01") ∧
    fieldsGet c3Fields "vendor" = some (.str "acme") ∧
    (evaluateExtraction "doc-1" "receipt" c3Fields c3Consensus (11/20) "txt" "t").fields
      = [] ∧
    (evaluateExtraction "doc-1" "receipt" c3Fields c3Consensus (11/20) "txt"
      "t").needs_confirmation = false := by
  refine ⟨by norm_num, by decide, by decide, by decide, by decide, by decide⟩

/-! ### C10: currency normalization -/

/-- Whether a `re.sub` matcher matches at any position of the text (with
the given preceding character). -/
def anyMatch (m : Option Char → List Char → Option (List Char × Nat)) :
    Option Char → List Char → Bool
  | _, [] => false
  | prev, c :: rest => (m prev (c :: rest)).isSome || anyMatch m (some c) rest

/-- A substitution whose pattern matches nowhere leaves the text unchanged. -/
theorem subScan_no_match (m : Option Char → List Char → Option (List Char × Nat)) :
    ∀ (fuel : Nat) (prev : Option Char) (s : List Char),
      anyMatch m prev s = false → subScan m fuel prev s = s := by
  intro fuel
  induction fuel with
  | zero => intro prev s _; rfl
  | succ n ih =>
    intro prev s h
    cases s with
    | nil => rfl
    | cons c rest =>
      unfold anyMatch at h
      cases hm : m prev (c :: rest) with
      | some v =>
        rw [hm] at h
        simp at h
      | none =>
        rw [hm] at h
        simp only [Option.isSome_none, Bool.false_or] at h
        unfold subScan
        rw [hm, ih (some c) rest h]

theorem pySub_no_match (m : Option Char → List Char → Option (List Char × Nat))
    (s : List Char) (h : anyMatch m Option.none s = false) : pySub m s = s :=
  subScan_no_match m _ _ _ h

/-- C10, amended. When none of the seven currency rules matches anywhere in
the text, `_normalize_currency` leaves it unchanged; `KSH`/`Ksh` (any case)
become `KES` and `US$` becomes `USD`. But `KSHS` does NOT become `KES`: the
KSH rule fires first on its prefix, yielding `KES S`; and text containing
neither a Kenya-shilling token nor `US$`/`USD$` can still be altered by the
two dollar-spacing rules (`"$ 5"` becomes `"$5"`). -/
theorem claim_C10_amended (text : String) :
    ((∀ rule ∈ CURRENCY_RULES, anyMatch rule.1 Option.none text.data = false) →
      normalizeCurrency text = text) ∧
    normalizeCurrency "KSH 100" = "KES 100" ∧
    normalizeCurrency "ksh 100" = "KES 100" ∧
    normalizeCurrency "Ksh. 100" = "KES 100" ∧
    normalizeCurrency "US$ 50" = "USD 50" ∧
    normalizeCurrency "KSHS 100" = "KES S 100" ∧
    normalizeCurrency "$ 5" = "$5" := by
  refine ⟨?nomat, by decide, by decide, by decide, by decide, by decide, by decide⟩
  case nomat =>
    intro h
    have key : ∀ (l : List ((Option Char → List Char → Option (List Char × Nat)) × String))
        (log : List String),
        (∀ rule ∈ l, anyMatch rule.1 Option.none text.data = false) →
        l.foldl currencyStep (text.data, log) = (text.data, log) := by
      intro l
      induction l with
      | nil => intro log _; rfl
      | cons r rs ih =>
        intro log hl
        rw [List.foldl_cons]
        have hr : pySub r.1 text.data = text.data :=
          pySub_no_match _ _ (hl r (List.mem_cons_self _ _))
        have hstep : currencyStep (text.data, log) r = (text.data, log) := by
          unfold currencyStep
          rw [if_neg]
          intro hne
          exact hne hr
        rw [hstep]
        exact ih log (fun rule hrule => hl rule (List.mem_cons_of_mem _ hrule))
    show String.mk (CURRENCY_RULES.foldl currencyStep (text.data, [])).1 = text
    rw [key CURRENCY_RULES [] h]

/-- C10, counterexample to the original claim: `KSHS 100` is rewritten to
`KES S 100`, not `KES 100`; and `$ 5`, which contains no occurrence of any
Kenya-shilling token or of `US$`/`USD$`, is still altered (to `$5`). -/
theorem claim_C10_counterexample :
    normalizeCurrency "KSHS 100" = "KES S 100" ∧
    normalizeCurrency "KSHS 100" ≠ "KES 100" ∧
    normalizeCurrency "$ 5" = "$5" ∧
    ("$ 5" : String) ≠ "$5" ∧
    anyMatch (matchKshLike "KSH".data) Option.none ("$ 5" : String).data = false ∧
    anyMatch (matchKshLike "KSHS".data) Option.none ("$ 5" : String).data = false ∧
    anyMatch (matchKshLike "Kes".data) Option.none ("$ 5" : String).data = false ∧
    anyMatch matchUSDollar Option.none ("$ 5" : String).data = false ∧
    anyMatch matchUSDdollar Option.none ("$ 5" : String).data = false := by
  refine ⟨by decide, by decide, by decide, by decide, by decide, by decide, by decide,
    by decide, by decide⟩

end SMELens
